import Mathlib

/-! nft-data: the ingestion loop and the cursor derivation of `main.go`

A shallow embedding of `main`, `fetchEvents` and `getLatestRecord`.

* The process is a pure function of its environment (`Env`): the HTTP responses,
  the faults of the MongoDB server, and the initial contents of the collection.
* Everything the process does to the outside is recorded, in order, in
  `World.trace`; the collection is `World.store`, in insertion order.
* A Go slice is `Option (List _)`: `none` is the nil slice, `some []` is the
  non-nil empty slice.  `main` tests `events == nil`, so the two differ.
* Go `int`/`int64` are `Int` with explicit wrap-around (`wrap64`), `uint64` is
  `Int` reduced modulo `2^64` (`wrapU64`).

Library calls are modelled from their documented behaviour:
`encoding/json.Unmarshal`, `time.Parse`/`time.Date`/`Time.Unix`, and the
MongoDB driver calls `Collection.InsertMany` and `Collection.FindOne`.
-/

namespace NftData

/-! ## JSON values and `json.Unmarshal` into `OpenSeaEvents` -/

/-- A JSON value; number literals keep their source text. This is also what
`json.Unmarshal` stores in an `interface{}`, so it is the type of an event
document. -/
inductive JSON where
  | null
  | bool (b : Bool)
  | num (lit : String)
  | str (s : String)
  | arr (elems : List JSON)
  | obj (members : List (String × JSON))

/-- A response body as `json.Unmarshal` sees it: text that is not valid JSON,
or the JSON value the text denotes. -/
inductive Body where
  | malformed
  | value (j : JSON)

/-- The struct `OpenSeaEvents`: one field, `Events []interface{}`, with the
tag `json:"asset_events"`. -/
structure OpenSeaEvents where
  Events : Option (List JSON)

/-- Case folding of one character of an object key, as `encoding/json` folds
it before comparing with a field name: ASCII letters to upper case, the long
s (U+017F) to `S`, the Kelvin sign (U+212A) to `K`. -/
def foldRune (c : Char) : Char :=
  if 'a' ≤ c ∧ c ≤ 'z' then Char.ofNat (c.toNat - 32)
  else if c = Char.ofNat 0x17F then 'S'
  else if c = Char.ofNat 0x212A then 'K'
  else c

/-- Whether an object key selects the field tagged `asset_events`: an exact
match, or a match after case folding. -/
def matchesAssetEvents (key : String) : Bool :=
  key == "asset_events" || key.toList.map foldRune == "ASSET_EVENTS".toList

/-- Decoding one JSON value into the field `Events` (a slice of
`interface{}`). `null` sets the nil slice, an array sets a non-nil slice (also
when it is empty), any other value leaves the field as it is and records an
`UnmarshalTypeError`. The flag is "an error has been saved". -/
def storeEvents (acc : OpenSeaEvents × Bool) (v : JSON) : OpenSeaEvents × Bool :=
  match v with
  | .null => ({ Events := none }, acc.2)
  | .arr elems => ({ Events := some elems }, acc.2)
  | _ => (acc.1, true)

/-- Decoding the members of a JSON object into the struct, in source order.
Members whose key selects no field are skipped. -/
def decodeMembers (members : List (String × JSON)) (acc : OpenSeaEvents × Bool) :
    OpenSeaEvents × Bool :=
  members.foldl (fun a kv => if matchesAssetEvents kv.1 then storeEvents a kv.2 else a) acc

/-- The call `json.Unmarshal(body, &events)`: the struct afterwards and whether
an error is returned. Invalid text is rejected before anything is stored; a
top-level `null` is a no-op; a top-level value that is neither `null` nor an
object is an `UnmarshalTypeError`. -/
def jsonUnmarshal (body : Body) (events : OpenSeaEvents) : OpenSeaEvents × Bool :=
  match body with
  | .malformed => (events, true)
  | .value .null => (events, false)
  | .value (.obj members) => decodeMembers members (events, false)
  | .value _ => (events, true)

/-! ## Machine integers -/

/-- Two's-complement reduction to `int64`. -/
def wrap64 (x : Int) : Int := (x + 2 ^ 63) % 2 ^ 64 - 2 ^ 63

/-- Reduction to `uint64`. -/
def wrapU64 (x : Int) : Int := x % 2 ^ 64

/-! ## Errors, actions, the world -/

/-- The error values that reach `log`. -/
inductive GoError where
  | transport (detail : String)
  | bodyRead (detail : String)
  | emptySlice
  | marshal
  | serverWrite
  | noDocuments
  | serverRead
  | bsonDecode
  | timeParse (value : String)
  deriving DecidableEq

/-- What the process does to the outside, one constructor per kind of call. -/
inductive Action where
  | fetchCall (page : Int) (time : Int)
  | httpGet (url : String)
  | insertMany (documents : Option (List JSON))
  | findOne
  | stdout (text : String)
  | logPrintf (format : String) (err : GoError)
  | logPrint (err : GoError)
  | logFatal (err : GoError)

/-- The collection (insertion order) and the actions so far (oldest first). -/
structure World where
  store : List JSON
  trace : List Action

/-- Appending one action to the trace. -/
def World.emit (w : World) (a : Action) : World :=
  { w with trace := w.trace ++ [a] }

/-- How a run ends: `completed` when control reaches the end of the function,
`fatal` when `log.Fatal` exits the process, `outOfFuel` when the fuel of the
loop model is used up. -/
inductive Outcome where
  | completed (w : World)
  | fatal (w : World)
  | outOfFuel (w : World)

/-- The world in which a run ended. -/
def Outcome.world : Outcome → World
  | .completed w => w
  | .fatal w => w
  | .outOfFuel w => w

/-! ## The environment -/

/-- The result of `http.Get` followed by `ioutil.ReadAll`. -/
inductive HttpResult where
  | requestFailed (detail : String)
  | readFailed (detail : String)
  | body (b : Body)

/-- The environment of one run.
* `http url`: what the GET of `url` yields.
* `writeFault store docs`: `none` when the server accepts the whole batch,
  `some n` when the insert fails after `n` documents of the batch were
  committed (inserts are ordered).
* `readFault store`: whether the `FindOne` round trip fails.
* `bsonLe a b`: the server's sort order on `created_date` values, consulted
  when at least one of them is not a string.
* `decodeNonString v`: what decoding a `created_date` value that is not a
  string into a Go `string` gives, `none` for a decode error. -/
structure Env where
  http : String → HttpResult
  writeFault : List JSON → List JSON → Option Nat
  readFault : List JSON → Bool
  bsonLe : Option JSON → Option JSON → Bool
  decodeNonString : JSON → Option String

/-! ## `fetchEvents` -/

/-- The URL built by `fmt.Sprintf` in `fetchEvents`; `page*50` is an `int`
product. -/
def eventsURL (page : Int) (time : Int) : String :=
  "https://api.opensea.io/api/v1/events?only_opensea=false&offset="
    ++ toString (wrap64 (page * 50))
    ++ "&limit=50&occurred_before="
    ++ toString time
    ++ "&event_type=successful"

/-- The function `fetchEvents(page, time)`; the call itself is recorded as
`fetchCall`. The error of `json.Unmarshal` is assigned and never read: the
field `Events` is returned whatever it is. -/
def fetchEvents (env : Env) (page : Int) (time : Int) (w : World) :
    Option (List JSON) × World :=
  let w := w.emit (.fetchCall page time)
  let url := eventsURL page time
  let w := w.emit (.httpGet url)
  match env.http url with
  | .requestFailed detail =>
    (none, w.emit (.logPrintf "Request Failed: %s" (.transport detail)))
  | .readFailed detail =>
    (none, w.emit (.logPrintf "Read Failed: %s" (.bodyRead detail)))
  | .body b =>
    let events : OpenSeaEvents := { Events := none }
    let r := jsonUnmarshal b events
    (r.1.Events, w)

/-! ## `time.Parse` with the layout of `getLatestRecord`, `time.Date`, `Time.Unix`

The layout `"2006-01-02T15:04:05.999999999"` splits into the chunks
year (four digits), `-`, month (two digits), `-`, day (two digits), `T`,
hour (one or two digits), `:`, minute (two digits), `:`, second (two digits),
and an optional fraction. The functions below follow the `time` package of
Go 1.20, chunk by chunk (a comma is accepted as the separator of the fraction,
fraction digits after the ninth are dropped). Strings are lists of characters:
every test the package makes on a byte is a test for an ASCII character, which
no byte of a multi-byte character passes. -/

/-- The struct `time.Time` without a monotonic reading: `wall` holds the
nanoseconds, `ext` the seconds since January 1 of year 1, UTC. -/
structure Time where
  wall : Int
  ext : Int
  deriving DecidableEq

/-- The zero value `Time{}`. -/
def Time.zero : Time := { wall := 0, ext := 0 }

def secondsPerDay : Int := 86400

def absoluteZeroYear : Int := -292277022399

def absoluteToInternal : Int := -9223371966579724800

def unixToInternal : Int := (1969 * 365 + 1969 / 4 - 1969 / 100 + 1969 / 400) * secondsPerDay

def internalToUnix : Int := -unixToInternal

/-- The method `Time.Unix`. -/
def Time.Unix (t : Time) : Int := wrap64 (t.ext + internalToUnix)

/-- The function `unixTime(sec, nsec)`. -/
def unixTime (sec : Int) (nsec : Int) : Time :=
  { wall := wrapU64 nsec, ext := wrap64 (sec + unixToInternal) }

/-- The function `isLeap`. -/
def isLeap (year : Int) : Bool :=
  year % 4 == 0 && (year % 100 != 0 || year % 400 == 0)

/-- The table `daysBefore`: `daysBefore[m]` is the number of days of a
non-leap year before month `m+1`. -/
def daysBefore : List Int := [0, 31, 59, 90, 120, 151, 181, 212, 243, 273, 304, 334, 365]

/-- The function `daysIn(m, year)`. -/
def daysIn (m : Int) (year : Int) : Int :=
  if m == 2 && isLeap year then 29
  else daysBefore.getD m.toNat 0 - daysBefore.getD (m.toNat - 1) 0

/-- The function `norm(hi, lo, base)`; both divisions have non-negative
operands. -/
def norm (hi lo base : Int) : Int × Int :=
  let (hi, lo) := if lo < 0 then
      let n := (-lo - 1) / base + 1
      (hi - n, lo + n * base)
    else (hi, lo)
  if lo ≥ base then
    let n := lo / base
    (hi + n, lo - n * base)
  else (hi, lo)

/-- The function `daysSinceEpoch(year)`, in `uint64` arithmetic. -/
def daysSinceEpoch (year : Int) : Int :=
  let y := wrapU64 (year - absoluteZeroYear)
  let n := y / 400
  let y := y - 400 * n
  let d := 146097 * n
  let n := y / 100
  let y := y - 100 * n
  let d := d + 36524 * n
  let n := y / 4
  let y := y - 4 * n
  let d := d + 1461 * n
  let n := y
  wrapU64 (d + 365 * n)

/-- The function `time.Date` with location UTC. -/
def Date (year month day hour min sec nsec : Int) : Time :=
  let m := month - 1
  let (year, m) := norm year m 12
  let month := m + 1
  let (sec, nsec) := norm sec nsec 1000000000
  let (min, sec) := norm min sec 60
  let (hour, min) := norm hour min 60
  let (day, hour) := norm day hour 24
  let d := daysSinceEpoch year
  let d := wrapU64 (d + wrapU64 (daysBefore.getD (month - 1).toNat 0))
  let d := if isLeap year && month ≥ 3 then wrapU64 (d + 1) else d
  let d := wrapU64 (d + wrapU64 (day - 1))
  let abs := wrapU64 (d * secondsPerDay)
  let abs := wrapU64 (abs + wrapU64 (hour * 3600 + min * 60 + sec))
  let unix := wrap64 (wrap64 abs + (absoluteToInternal + internalToUnix))
  unixTime unix nsec

/-- Whether a character is an ASCII digit. -/
def isDigitChar (c : Char) : Bool := '0' ≤ c && c ≤ '9'

/-- The function `isDigit(s, i)`. -/
def isDigit (s : List Char) (i : Nat) : Bool :=
  match s.get? i with
  | some c => isDigitChar c
  | none => false

/-- The value of a digit, `c - '0'`. -/
def digitVal (c : Char) : Int := (c.toNat : Int) - 48

/-- The function `leadingInt`: the number written by the leading digits and
the rest of the string, or `none` on overflow. -/
def leadingInt : List Char → Int → Option (Int × List Char)
  | [], x => some (x, [])
  | c :: rest, x =>
    if isDigitChar c then
      if x > 2 ^ 63 / 10 then none
      else
        let x := x * 10 + digitVal c
        if x > 2 ^ 63 then none else leadingInt rest x
    else some (x, c :: rest)

/-- The function `atoi`. -/
def atoi (s : List Char) : Option Int :=
  let neg := s.head? == some '-'
  let s := if s.head? == some '-' || s.head? == some '+' then s.drop 1 else s
  match leadingInt s 0 with
  | none => none
  | some (q, rem) =>
    if rem.length > 0 then none
    else some (if neg then wrap64 (-(wrap64 q)) else wrap64 q)

/-- The function `getnum(s, fixed)`. -/
def getnum (s : List Char) (fixed : Bool) : Option (Int × List Char) :=
  if !isDigit s 0 then none
  else if !isDigit s 1 then
    if fixed then none
    else some (digitVal (s.getD 0 '0'), s.drop 1)
  else some (digitVal (s.getD 0 '0') * 10 + digitVal (s.getD 1 '0'), s.drop 2)

/-- The function `skip(value, prefix)` for a prefix of one character that is
not a space. -/
def skip (value : List Char) (c : Char) : Option (List Char) :=
  match value with
  | [] => none
  | v :: rest => if v = c then some rest else none

/-- The function `commaOrPeriod`. -/
def commaOrPeriod (c : Char) : Bool := c == '.' || c == ','

/-- The function `parseNanoseconds(value, nbytes)`. -/
def parseNanoseconds (value : List Char) (nbytes : Nat) : Option Int :=
  if !commaOrPeriod (value.getD 0 ' ') then none
  else
    let nbytes := if nbytes > 10 then 10 else nbytes
    match atoi ((value.take nbytes).drop 1) with
    | none => none
    | some ns => if ns < 0 then none else some (ns * 10 ^ (10 - nbytes))

/-- The fraction chunk `.999999999`: when the value does not go on with a
separator and a digit, nothing is consumed; otherwise the separator and all
digits that follow are consumed. -/
def parseFraction (value : List Char) : Option (Int × List Char) :=
  if value.length < 2 || !commaOrPeriod (value.getD 0 ' ') || !isDigitChar (value.getD 1 ' ') then
    some (0, value)
  else
    let i := ((value.drop 1).takeWhile isDigitChar).length
    match parseNanoseconds value (1 + i) with
    | none => none
    | some nsec => some (nsec, value.drop (1 + i))

/-- The fields `time.Parse` reads from a value. -/
structure Fields where
  year : Int
  month : Int
  day : Int
  hour : Int
  min : Int
  sec : Int
  nsec : Int
  deriving DecidableEq

/-- The chunk loop of `time.Parse` for the layout of `getLatestRecord`:
`none` when a chunk fails to match, a number is out of range, or text is left
over. -/
def parseFields (value : List Char) : Option Fields :=
  if value.length < 4 || !isDigit value 0 then none else
  match atoi (value.take 4) with
  | none => none
  | some year =>
  match skip (value.drop 4) '-' with
  | none => none
  | some value =>
  match getnum value true with
  | none => none
  | some (month, value) =>
  if month ≤ 0 || 12 < month then none else
  match skip value '-' with
  | none => none
  | some value =>
  match getnum value true with
  | none => none
  | some (day, value) =>
  match skip value 'T' with
  | none => none
  | some value =>
  match getnum value false with
  | none => none
  | some (hour, value) =>
  if hour < 0 || 24 ≤ hour then none else
  match skip value ':' with
  | none => none
  | some value =>
  match getnum value true with
  | none => none
  | some (min, value) =>
  if min < 0 || 60 ≤ min then none else
  match skip value ':' with
  | none => none
  | some value =>
  match getnum value true with
  | none => none
  | some (sec, value) =>
  if sec < 0 || 60 ≤ sec then none else
  match parseFraction value with
  | none => none
  | some (nsec, value) =>
  if value.length > 0 then none
  else some { year := year, month := month, day := day, hour := hour, min := min,
              sec := sec, nsec := nsec }

/-- The call `time.Parse("2006-01-02T15:04:05.999999999", value)`: the time
and the error. On every error the time is `Time{}`. The day of the month is
validated after the chunks; without zone information the result is in UTC. -/
def timeParse (value : String) : Time × Option GoError :=
  match parseFields value.toList with
  | none => (Time.zero, some (.timeParse value))
  | some f =>
    if f.day < 1 || f.day > daysIn f.month f.year then (Time.zero, some (.timeParse value))
    else (Date f.year f.month f.day f.hour f.min f.sec f.nsec, none)

/-! ## The collection -/

/-- Whether a value can be marshalled as a BSON document. -/
def isDocument : JSON → Bool
  | .obj _ => true
  | _ => false

/-- The call `collection.InsertMany(ctx, documents)`: the error and the
collection afterwards. An empty slice is rejected with `ErrEmptySlice` and a
value that is not a document with a marshalling error, both before anything
is sent. The `_id` field the driver adds is not represented. -/
def insertMany (env : Env) (store : List JSON) (documents : Option (List JSON)) :
    Option GoError × List JSON :=
  let docs := documents.getD []
  if docs.length = 0 then (some .emptySlice, store)
  else if !docs.all isDocument then (some .marshal, store)
  else
    match env.writeFault store docs with
    | none => (none, store ++ docs)
    | some n => (some .serverWrite, store ++ docs.take n)

/-- The value of the field `created_date` of a stored document. Documents come
from Go maps, where the last of several equal keys wins. -/
def createdDate (doc : JSON) : Option JSON :=
  match doc with
  | .obj members => (members.reverse.find? (fun kv => kv.1 == "created_date")).map (fun kv => kv.2)
  | _ => none

/-- Binary comparison of two strings, `a ≤ b`: the first differing character
decides, a proper prefix comes first. Code point order is the order of the
UTF-8 encodings. -/
def lexLe : List Char → List Char → Bool
  | [], _ => true
  | _ :: _, [] => false
  | a :: as, b :: bs => if a < b then true else if b < a then false else lexLe as bs

/-- Whether document `a` sorts at or before document `b` under the sort
`{created_date: 1}`. -/
def sortsBefore (env : Env) (a b : JSON) : Bool :=
  match createdDate a, createdDate b with
  | some (.str x), some (.str y) => lexLe x.toList y.toList
  | ka, kb => env.bsonLe ka kb

/-- The first document under the ascending sort; among documents that sort
equal, the one inserted first. -/
def earliest (env : Env) : List JSON → Option JSON
  | [] => none
  | d :: ds => some (ds.foldl (fun best x => if sortsBefore env best x then best else x) d)

/-- The struct `EventDate`: one field, `CreatedDate string`, with the tag
`bson:"created_date"`. -/
structure EventDate where
  CreatedDate : String
  deriving DecidableEq

/-- Whether the key of a document element selects the field tagged
`created_date` in the driver's struct decoder: the key is looked up as it is
and, when that finds no field, in lower case. Only ASCII letters need folding:
no other character has a letter of the tag as its lower case. -/
def matchesCreatedDate (key : String) : Bool :=
  key == "created_date" || key.toList.map Char.toLower == "created_date".toList

/-- Decoding one element of a found document into `EventDate`: an element
whose key selects the field overwrites it, a string as it is; any other
element is skipped. An error ends the decoding. -/
def decodeElement (env : Env) (acc : Except GoError EventDate) (kv : String × JSON) :
    Except GoError EventDate :=
  match acc with
  | .error e => .error e
  | .ok cur =>
    if matchesCreatedDate kv.1 then
      match kv.2 with
      | .str s => .ok { CreatedDate := s }
      | v =>
        match env.decodeNonString v with
        | some s => .ok { CreatedDate := s }
        | none => .error .bsonDecode
    else .ok cur

/-- Decoding a found document into `EventDate`: the elements are read in
document order, starting from the zero value, so a missing field leaves the
zero value and the last element that selects the field decides. -/
def decodeEventDate (env : Env) (doc : JSON) : Except GoError EventDate :=
  match doc with
  | .obj members => members.foldl (decodeElement env) (.ok { CreatedDate := "" })
  | _ => .ok { CreatedDate := "" }

/-- The call `collection.FindOne(nil, bson.D{}, opts).Decode(&createdDate)`
with `opts` the ascending sort on `created_date`. -/
def findOneDecode (env : Env) (store : List JSON) : Except GoError EventDate :=
  if env.readFault store then .error .serverRead
  else
    match earliest env store with
    | none => .error .noDocuments
    | some doc => decodeEventDate env doc

/-! ## `getLatestRecord` and `main` -/

/-- The function `getLatestRecord(collection)`. -/
def getLatestRecord (env : Env) (w : World) : Outcome :=
  let w := w.emit .findOne
  match findOneDecode env w.store with
  | .error err => .fatal (w.emit (.logFatal err))
  | .ok createdDate =>
    let w := w.emit (.stdout (createdDate.CreatedDate ++ "\n"))
    let (timestamp, err) := timeParse createdDate.CreatedDate
    let w := match err with
      | some e => w.emit (.logPrint e)
      | none => w
    .completed (w.emit (.stdout (toString timestamp.Unix ++ "\n")))

/-- The loop `for i := 0; i <= 200; i++` of `main`, started at `i`. Each unit
of fuel pays for one test of the loop condition. -/
def ingestLoop (env : Env) : Nat → Int → World → Outcome
  | 0, _, w => .outOfFuel w
  | fuel + 1, i, w =>
    if i ≤ 200 then
      let (events, w) := fetchEvents env i 1615746153 w
      match events with
      | none => .completed (w.emit (.stdout "No events returned\n"))
      | some _ =>
        let w := w.emit (.insertMany events)
        let (err, store) := insertMany env w.store events
        let w := { w with store := store }
        match err with
        | some e => .fatal (w.emit (.logFatal e))
        | none => ingestLoop env fuel (i + 1) (w.emit (.stdout "."))
    else .completed w

/-- The function `main`, from the point where the collection handle exists:
the loop, then `getLatestRecord`, then the final line. `store0` is the
collection before the run. -/
def main (env : Env) (store0 : List JSON) : Outcome :=
  match ingestLoop env 202 0 { store := store0, trace := [] } with
  | .completed w =>
    match getLatestRecord env w with
    | .completed w => .completed (w.emit (.stdout "Program complete\n"))
    | o => o
  | o => o

/-! ## Observations on a trace -/

/-- The calls of `fetchEvents` in a trace: page and time, in order. -/
def fetchCalls (tr : List Action) : List (Int × Int) :=
  tr.filterMap (fun a => match a with
    | .fetchCall page time => some (page, time)
    | _ => none)

/-- The URLs of the GET requests in a trace, in order. -/
def httpGets (tr : List Action) : List String :=
  tr.filterMap (fun a => match a with
    | .httpGet url => some url
    | _ => none)

/-- The arguments of the `InsertMany` calls in a trace, in order. -/
def writes (tr : List Action) : List (Option (List JSON)) :=
  tr.filterMap (fun a => match a with
    | .insertMany documents => some documents
    | _ => none)

/-- The texts written to standard output in a trace, in order. -/
def printed (tr : List Action) : List String :=
  tr.filterMap (fun a => match a with
    | .stdout text => some text
    | _ => none)

/-- Whether `getLatestRecord` queried the collection in a trace. -/
def queried (tr : List Action) : Bool :=
  tr.any (fun a => match a with
    | .findOne => true
    | _ => false)

/-- The log line, if any, that `fetchEvents` writes after the request. -/
def fetchLog (env : Env) (page time : Int) : List Action :=
  match env.http (eventsURL page time) with
  | .requestFailed detail => [.logPrintf "Request Failed: %s" (.transport detail)]
  | .readFailed detail => [.logPrintf "Read Failed: %s" (.bodyRead detail)]
  | .body _ => []

/-- What `fetchEvents` returns for a page in the run of `main`, which passes
the constant time `1615746153`. -/
def fetched (env : Env) (page : Int) : Option (List JSON) :=
  (fetchEvents env page 1615746153 { store := [], trace := [] }).1

/-- The actions of one call of `fetchEvents` in the run of `main`. -/
def fetchActions (env : Env) (page : Int) : List Action :=
  .fetchCall page 1615746153 :: .httpGet (eventsURL page 1615746153) ::
    fetchLog env page 1615746153

/-- The documents of pages `0 .. k-1`, in order. -/
def ingested (env : Env) : Nat → List JSON
  | 0 => []
  | k + 1 => ingested env k ++ (fetched env k).getD []

/-- The actions of `n` consecutive iterations of the loop of `main`, from page
`i` on, in each of which the fetch returned a non-nil slice and the insert
succeeded. -/
def successTrace (env : Env) : Nat → Nat → List Action
  | _, 0 => []
  | i, n + 1 =>
    fetchActions env i ++ [.insertMany (fetched env i), .stdout "."] ++ successTrace env (i + 1) n

/-! ## Concrete environments and documents -/

/-- An event document with an identifier and a creation date. -/
def eventDoc (id : String) (created : String) : JSON :=
  .obj [("id", .num id), ("created_date", .str created)]

/-- A response body `{"asset_events": [...]}`. -/
def eventsBody (events : List JSON) : HttpResult :=
  .body (.value (.obj [("asset_events", .arr events)]))

/-- An environment whose server has no faults. -/
def steadyEnv (http : String → HttpResult) : Env :=
  { http := http
    writeFault := fun _ _ => none
    readFault := fun _ => false
    bsonLe := fun _ _ => true
    decodeNonString := fun _ => none }

/-- Every request is answered by a page of one event. -/
def endlessEnv : Env :=
  steadyEnv (fun _ => eventsBody [eventDoc "1" "2021-03-14T11:42:27.000000"])

/-- Page 0 holds three events, page 1 is `{"asset_events": []}`. -/
def threeThenEmptyEnv : Env :=
  steadyEnv (fun url =>
    if url = eventsURL 0 1615746153 then
      eventsBody [eventDoc "1" "2021-03-14T11:42:27.000000",
                  eventDoc "2" "2021-03-14T11:40:03.000000",
                  eventDoc "3" "2021-03-14T11:41:55.000000"]
    else if url = eventsURL 1 1615746153 then eventsBody []
    else .requestFailed "no such page")

/-- Every request is answered by a page of one event; the server accepts an
insert into an empty collection and rejects every later one. -/
def secondWriteFailsEnv : Env :=
  { http := fun _ => eventsBody [eventDoc "1" "2021-03-14T11:42:27.000000"]
    writeFault := fun store _ => if store.length = 0 then none else some 0
    readFault := fun _ => false
    bsonLe := fun _ _ => true
    decodeNonString := fun _ => none }

/-- Every request fails in transport. -/
def offlineEnv : Env :=
  steadyEnv (fun _ => .requestFailed "dial tcp: no route to host")

/-- Page 0 holds one event whose creation date has a space where the layout
has `T`; every other request fails in transport. -/
def badDateEnv : Env :=
  steadyEnv (fun url =>
    if url = eventsURL 0 1615746153 then eventsBody [eventDoc "1" "2021-03-14 11:42:27"]
    else .requestFailed "timeout")

/-- The body `{"asset_events": [e], "asset_events": 7}`: valid JSON in which
the key occurs twice, the second time with a number. -/
def duplicateKeyBody : Body :=
  .value (.obj [("asset_events", .arr [eventDoc "1" "2021-03-14T11:42:27.000000"]),
                ("asset_events", .num "7")])

/-- Page 0 is answered with `duplicateKeyBody`; every other request fails in
transport. -/
def duplicateKeyEnv : Env :=
  steadyEnv (fun url =>
    if url = eventsURL 0 1615746153 then .body duplicateKeyBody
    else .requestFailed "timeout")

/-! ## Timestamp strings and the unix time of an instant, from the specification

The specification speaks of "the corresponding unix timestamp for that exact
instant" and of timestamp strings that "share the same format/precision".
The definitions of this section state these notions on their own, without
reference to the code: a civil date and time, how it is written, and the
number of seconds between 1970-01-01T00:00:00Z and it, counted day by day. -/

/-- A civil date and time of day, in UTC. -/
structure Civil where
  year : Nat
  month : Nat
  day : Nat
  hour : Nat
  min : Nat
  sec : Nat
  deriving DecidableEq

/-- The Gregorian leap year rule. -/
def leapYear (y : Nat) : Bool :=
  y % 4 == 0 && (y % 100 != 0 || y % 400 == 0)

/-- The number of days of a year. -/
def yearLength (y : Nat) : Nat :=
  if leapYear y then 366 else 365

/-- The number of days of month `m` (1..12) of year `y`. -/
def monthLength (y m : Nat) : Nat :=
  if m = 2 then (if leapYear y then 29 else 28)
  else if m = 4 ∨ m = 6 ∨ m = 9 ∨ m = 11 then 30
  else 31

/-- A date that exists in the calendar, with a four-digit year, and a time of
day without leap second. -/
def Civil.Valid (c : Civil) : Prop :=
  c.year ≤ 9999 ∧ 1 ≤ c.month ∧ c.month ≤ 12 ∧ 1 ≤ c.day ∧ c.day ≤ monthLength c.year c.month ∧
  c.hour ≤ 23 ∧ c.min ≤ 59 ∧ c.sec ≤ 59

instance (c : Civil) : Decidable c.Valid := by
  unfold Civil.Valid
  infer_instance

/-- The number of days in the years `0 .. y-1`. -/
def daysBeforeYear : Nat → Nat
  | 0 => 0
  | y + 1 => daysBeforeYear y + yearLength y

/-- The number of days in the months `1 .. m` of year `y`. -/
def daysInMonths (y : Nat) : Nat → Nat
  | 0 => 0
  | m + 1 => daysInMonths y m + monthLength y (m + 1)

/-- The number of whole days from 0000-01-01 to the date. -/
def Civil.dayNumber (c : Civil) : Nat :=
  daysBeforeYear c.year + daysInMonths c.year (c.month - 1) + (c.day - 1)

/-- The unix timestamp of the instant: 86400 seconds for every whole day since
1970-01-01, plus the seconds of the day. -/
def Civil.unix (c : Civil) : Int :=
  86400 * ((c.dayNumber : Int) - (daysBeforeYear 1970 : Nat))
    + 3600 * (c.hour : Int) + 60 * (c.min : Int) + (c.sec : Int)

/-- The character of the last decimal digit of a number. -/
def digitChar (d : Nat) : Char := Char.ofNat (48 + d % 10)

/-- A number written with two digits. -/
def twoDigits (n : Nat) : List Char := [digitChar (n / 10), digitChar n]

/-- A number written with four digits. -/
def fourDigits (n : Nat) : List Char :=
  [digitChar (n / 1000), digitChar (n / 100), digitChar (n / 10), digitChar n]

/-- The optional fraction: nothing for no digits, else a period and the
digits. -/
def fractionText (frac : List Nat) : List Char :=
  match frac with
  | [] => []
  | d :: ds => '.' :: (d :: ds).map digitChar

/-- The characters of `YYYY-MM-DDTHH:MM:SS` followed by the optional fraction. -/
def stampChars (c : Civil) (frac : List Nat) : List Char :=
  fourDigits c.year ++ '-' :: twoDigits c.month ++ '-' :: twoDigits c.day ++ 'T' ::
    twoDigits c.hour ++ ':' :: twoDigits c.min ++ ':' :: twoDigits c.sec ++ fractionText frac

/-- The timestamp string of a civil time with the given fraction digits. -/
def stamp (c : Civil) (frac : List Nat) : String :=
  String.mk (stampChars c frac)

/-- The instant 2021-03-14T12:00:00Z. -/
def piDayNoon : Civil :=
  { year := 2021, month := 3, day := 14, hour := 12, min := 0, sec := 0 }

/-- The six fields of a civil time as one number, `YYYYMMDDHHMMSS`. -/
def Civil.sortKey (c : Civil) : Nat :=
  ((((c.year * 100 + c.month) * 100 + c.day) * 100 + c.hour) * 100 + c.min) * 100 + c.sec

/-- Three stored events whose creation dates have six fraction digits. -/
def threeDocs : List JSON :=
  [eventDoc "1" "2021-03-14T11:42:27.000000",
   eventDoc "2" "2021-03-14T11:40:03.000000",
   eventDoc "3" "2021-03-14T11:41:55.000000"]

/-- A stored event with two elements whose keys differ only in case:
`created_date`, then `CREATED_DATE` with a later time. -/
def shadowedDateDoc : JSON :=
  .obj [("created_date", .str "2021-03-14T11:40:03"),
        ("CREATED_DATE", .str "2021-03-14T12:00:00")]

/-- The instant 2021-03-14T11:40:03Z. -/
def elevenForty : Civil :=
  { year := 2021, month := 3, day := 14, hour := 11, min := 40, sec := 3 }

/-! ## Theorems -/

theorem wrap64_of_small (x : Int) (h0 : -(2 ^ 63) ≤ x) (h1 : x < 2 ^ 63) : wrap64 x = x := by
  unfold wrap64
  omega

theorem wrapU64_of_small (x : Int) (h0 : 0 ≤ x) (h1 : x < 2 ^ 64) : wrapU64 x = x := by
  unfold wrapU64
  omega

theorem fetchEvents_snd (env : Env) (page time : Int) (w : World) :
    (fetchEvents env page time w).2 =
      { store := w.store,
        trace := w.trace ++
          (.fetchCall page time :: .httpGet (eventsURL page time) :: fetchLog env page time) } := by
  unfold fetchEvents fetchLog
  cases h : env.http (eventsURL page time) <;> simp [World.emit, h]

theorem fetchEvents_fst (env : Env) (page time : Int) (w w1 : World) :
    (fetchEvents env page time w).1 = (fetchEvents env page time w1).1 := by
  unfold fetchEvents
  cases h : env.http (eventsURL page time) <;> simp [h]

theorem fetchLog_observations (env : Env) (page time : Int) :
    fetchCalls (fetchLog env page time) = [] ∧ httpGets (fetchLog env page time) = [] ∧
    writes (fetchLog env page time) = [] ∧ printed (fetchLog env page time) = [] ∧
    queried (fetchLog env page time) = false := by
  unfold fetchLog
  cases h : env.http (eventsURL page time) <;>
    simp [fetchCalls, httpGets, writes, printed, queried]


theorem fetchEvents_fst_eq (env : Env) (page : Int) (w : World) :
    (fetchEvents env page 1615746153 w).1 = fetched env page :=
  fetchEvents_fst env page 1615746153 w _

theorem fetchEvents_eq (env : Env) (page : Int) (w : World) :
    fetchEvents env page 1615746153 w =
      (fetched env page, { store := w.store, trace := w.trace ++ fetchActions env page }) := by
  apply Prod.ext
  · exact fetchEvents_fst_eq env page w
  · rw [fetchEvents_snd]; rfl

theorem ingestLoop_exit (env : Env) (fuel : Nat) (i : Int) (w : World) (h : ¬ i ≤ 200) :
    ingestLoop env (fuel + 1) i w = .completed w := by
  simp [ingestLoop, h]

theorem ingestLoop_nil (env : Env) (fuel : Nat) (i : Int) (w : World) (h : i ≤ 200)
    (hf : fetched env i = none) :
    ingestLoop env (fuel + 1) i w =
      .completed { store := w.store,
                   trace := w.trace ++ fetchActions env i ++ [.stdout "No events returned\n"] } := by
  simp [ingestLoop, h, fetchEvents_eq, hf, World.emit]

theorem ingestLoop_insert_error (env : Env) (fuel : Nat) (i : Int) (w : World) (h : i ≤ 200)
    (docs : List JSON) (hf : fetched env i = some docs) (e : GoError)
    (hi : (insertMany env w.store (some docs)).1 = some e) :
    ingestLoop env (fuel + 1) i w =
      .fatal { store := (insertMany env w.store (some docs)).2,
               trace := w.trace ++ fetchActions env i ++
                 [.insertMany (some docs), .logFatal e] } := by
  simp [ingestLoop, h, fetchEvents_eq, hf, World.emit, hi]

theorem ingestLoop_insert_ok (env : Env) (fuel : Nat) (i : Int) (w : World) (h : i ≤ 200)
    (docs : List JSON) (hf : fetched env i = some docs)
    (hi : (insertMany env w.store (some docs)).1 = none) :
    ingestLoop env (fuel + 1) i w =
      ingestLoop env fuel (i + 1)
        { store := (insertMany env w.store (some docs)).2,
          trace := w.trace ++ fetchActions env i ++ [.insertMany (some docs), .stdout "."] } := by
  simp [ingestLoop, h, fetchEvents_eq, hf, World.emit, hi]


theorem fetchCalls_append (a b : List Action) : fetchCalls (a ++ b) = fetchCalls a ++ fetchCalls b := by
  simp [fetchCalls]

theorem httpGets_append (a b : List Action) : httpGets (a ++ b) = httpGets a ++ httpGets b := by
  simp [httpGets]

theorem writes_append (a b : List Action) : writes (a ++ b) = writes a ++ writes b := by
  simp [writes]

theorem printed_append (a b : List Action) : printed (a ++ b) = printed a ++ printed b := by
  simp [printed]

theorem queried_append (a b : List Action) : queried (a ++ b) = (queried a || queried b) := by
  simp [queried]

theorem fetchActions_observations (env : Env) (page : Int) :
    fetchCalls (fetchActions env page) = [(page, 1615746153)] ∧
    httpGets (fetchActions env page) = [eventsURL page 1615746153] ∧
    writes (fetchActions env page) = [] ∧ printed (fetchActions env page) = [] ∧
    queried (fetchActions env page) = false := by
  obtain ⟨h1, h2, h3, h4, h5⟩ := fetchLog_observations env page 1615746153
  unfold fetchActions
  refine ⟨?_, ?_, ?_, ?_, ?_⟩
  · simpa [fetchCalls] using h1
  · simpa [httpGets] using h2
  · simpa [writes] using h3
  · simpa [printed] using h4
  · simpa [queried] using h5

theorem insertMany_ok (env : Env) (store : List JSON) (documents : Option (List JSON))
    (h : (insertMany env store documents).1 = none) :
    ∃ docs, documents = some docs ∧ docs ≠ [] ∧ docs.all isDocument = true ∧
      (insertMany env store documents).2 = store ++ docs := by
  unfold insertMany at h ⊢
  cases documents with
  | none => simp at h
  | some docs =>
    refine ⟨docs, rfl, ?_⟩
    by_cases h0 : docs.length = 0
    · simp [h0] at h
    · by_cases h1 : docs.all isDocument = true
      · cases hw : env.writeFault store docs with
        | none =>
          refine ⟨fun hd => h0 (by simp [hd]), h1, ?_⟩
          simp [h0, h1, hw]
        | some n => simp [h0, h1, hw] at h
      · simp [h0, h1] at h

theorem insertMany_empty (env : Env) (store : List JSON) :
    insertMany env store (some []) = (some .emptySlice, store) := by
  simp [insertMany]

theorem insertMany_prefix (env : Env) (store : List JSON) (documents : Option (List JSON)) :
    store <+: (insertMany env store documents).2 := by
  unfold insertMany
  simp only []
  split_ifs
  · exact List.prefix_refl _
  · exact List.prefix_refl _
  · cases env.writeFault store (documents.getD []) <;> exact List.prefix_append _ _


theorem getLatestRecord_eq (env : Env) (w : World) :
    getLatestRecord env w =
      match findOneDecode env w.store with
      | .error err => .fatal { store := w.store, trace := w.trace ++ [.findOne, .logFatal err] }
      | .ok cd =>
        match (timeParse cd.CreatedDate).2 with
        | some e => .completed { store := w.store, trace := w.trace ++
            [.findOne, .stdout (cd.CreatedDate ++ "\n"), .logPrint e,
             .stdout (toString (timeParse cd.CreatedDate).1.Unix ++ "\n")] }
        | none => .completed { store := w.store, trace := w.trace ++
            [.findOne, .stdout (cd.CreatedDate ++ "\n"),
             .stdout (toString (timeParse cd.CreatedDate).1.Unix ++ "\n")] } := by
  unfold getLatestRecord
  simp only [World.emit]
  cases h : findOneDecode env w.store with
  | error err => simp
  | ok cd =>
    simp only []
    cases h2 : (timeParse cd.CreatedDate) with
    | mk t e =>
      cases e <;> simp

theorem getLatestRecord_observations (env : Env) (w : World) :
    fetchCalls (getLatestRecord env w).world.trace = fetchCalls w.trace ∧
    httpGets (getLatestRecord env w).world.trace = httpGets w.trace ∧
    writes (getLatestRecord env w).world.trace = writes w.trace ∧
    (getLatestRecord env w).world.store = w.store ∧
    (∀ o, getLatestRecord env w ≠ .outOfFuel o) := by
  rw [getLatestRecord_eq]
  cases h : findOneDecode env w.store with
  | error err => simp [Outcome.world, fetchCalls, httpGets, writes]
  | ok cd =>
    cases h2 : (timeParse cd.CreatedDate).2 <;>
      simp [h2, Outcome.world, fetchCalls, httpGets, writes]

theorem main_eq (env : Env) (store0 : List JSON) :
    main env store0 =
      match ingestLoop env 202 0 { store := store0, trace := [] } with
      | .completed w =>
        match getLatestRecord env w with
        | .completed w1 =>
          .completed { store := w1.store, trace := w1.trace ++ [.stdout "Program complete\n"] }
        | o => o
      | o => o := by
  unfold main
  rfl

theorem main_observations (env : Env) (store0 : List JSON) :
    fetchCalls (main env store0).world.trace =
      fetchCalls (ingestLoop env 202 0 { store := store0, trace := [] }).world.trace ∧
    httpGets (main env store0).world.trace =
      httpGets (ingestLoop env 202 0 { store := store0, trace := [] }).world.trace ∧
    writes (main env store0).world.trace =
      writes (ingestLoop env 202 0 { store := store0, trace := [] }).world.trace ∧
    (main env store0).world.store =
      (ingestLoop env 202 0 { store := store0, trace := [] }).world.store := by
  rw [main_eq]
  cases h : ingestLoop env 202 0 { store := store0, trace := [] } with
  | completed w =>
    obtain ⟨h1, h2, h3, h4, _⟩ := getLatestRecord_observations env w
    cases h5 : getLatestRecord env w with
    | completed w1 =>
      rw [h5] at h1 h2 h3 h4
      simp only [h5, Outcome.world] at h1 h2 h3 h4 ⊢
      rw [fetchCalls_append, httpGets_append, writes_append, h1, h2, h3, h4]
      simp [fetchCalls, httpGets, writes]
    | fatal w1 =>
      rw [h5] at h1 h2 h3 h4
      simp only [h5, Outcome.world] at h1 h2 h3 h4 ⊢
      exact ⟨h1, h2, h3, h4⟩
    | outOfFuel w1 =>
      rw [h5] at h1 h2 h3 h4
      simp only [h5, Outcome.world] at h1 h2 h3 h4 ⊢
      exact ⟨h1, h2, h3, h4⟩
  | fatal w => simp
  | outOfFuel w => simp


theorem ingestLoop_cases (env : Env) (fuel : Nat) (i : Int) (w : World) :
    (¬ i ≤ 200 ∧ ingestLoop env (fuel + 1) i w = .completed w) ∨
    (i ≤ 200 ∧ fetched env i = none ∧
      ingestLoop env (fuel + 1) i w =
        .completed { store := w.store,
                     trace := w.trace ++ fetchActions env i ++ [.stdout "No events returned\n"] }) ∨
    (i ≤ 200 ∧ ∃ docs e, fetched env i = some docs ∧
      (insertMany env w.store (some docs)).1 = some e ∧
      ingestLoop env (fuel + 1) i w =
        .fatal { store := (insertMany env w.store (some docs)).2,
                 trace := w.trace ++ fetchActions env i ++
                   [.insertMany (some docs), .logFatal e] }) ∨
    (i ≤ 200 ∧ ∃ docs, fetched env i = some docs ∧ docs ≠ [] ∧
      (insertMany env w.store (some docs)).1 = none ∧
      ingestLoop env (fuel + 1) i w =
        ingestLoop env fuel (i + 1)
          { store := w.store ++ docs,
            trace := w.trace ++ fetchActions env i ++ [.insertMany (some docs), .stdout "."] }) := by
  by_cases h : i ≤ 200
  · right
    cases hf : fetched env i with
    | none => exact Or.inl ⟨h, rfl, ingestLoop_nil env fuel i w h hf⟩
    | some docs =>
      right
      cases hi : (insertMany env w.store (some docs)).1 with
      | some e =>
        exact Or.inl ⟨h, docs, e, rfl, hi, ingestLoop_insert_error env fuel i w h docs hf e hi⟩
      | none =>
        right
        obtain ⟨d, hd, hne, _, hst⟩ := insertMany_ok env w.store (some docs) hi
        cases hd
        refine ⟨h, docs, rfl, hne, hi, ?_⟩
        rw [ingestLoop_insert_ok env fuel i w h docs hf hi, hst]
  · exact Or.inl ⟨h, ingestLoop_exit env fuel i w h⟩

theorem ingestLoop_fetchCalls_bound (env : Env) (k : Int)
    (hk : fetched env k = none ∨ fetched env k = some []) :
    ∀ (fuel : Nat) (i : Int) (w : World), i ≤ k →
      ∀ p t, (p, t) ∈ fetchCalls (ingestLoop env fuel i w).world.trace →
        (p, t) ∈ fetchCalls w.trace ∨ p ≤ k := by
  intro fuel
  induction fuel with
  | zero =>
    intro i w _ p t hp
    exact Or.inl (by simpa [ingestLoop, Outcome.world] using hp)
  | succ fuel ih =>
    intro i w hik p t hp
    have hobs := (fetchActions_observations env i).1
    rcases ingestLoop_cases env fuel i w with ⟨_, h⟩ | ⟨_, _, h⟩ | ⟨_, docs, e, _, _, h⟩ |
        ⟨_, docs, hf, hne, _, h⟩
    · rw [h] at hp
      exact Or.inl hp
    · rw [h] at hp
      simp only [Outcome.world, fetchCalls_append, hobs, List.mem_append] at hp
      rcases hp with (hp | hp) | hp
      · exact Or.inl hp
      · simp at hp
        exact Or.inr (by omega)
      · simp [fetchCalls] at hp
    · rw [h] at hp
      simp only [Outcome.world, fetchCalls_append, hobs, List.mem_append] at hp
      rcases hp with (hp | hp) | hp
      · exact Or.inl hp
      · simp at hp
        exact Or.inr (by omega)
      · simp [fetchCalls] at hp
    · rw [h] at hp
      have hne2 : i ≠ k := by
        intro hik2
        rw [hik2] at hf
        rcases hk with hk | hk
        · rw [hk] at hf; cases hf
        · rw [hk] at hf; cases hf; exact hne rfl
      have := ih (i + 1) _ (by omega) p t hp
      rcases this with hp | hp
      · simp only [fetchCalls_append, hobs, List.mem_append] at hp
        rcases hp with (hp | hp) | hp
        · exact Or.inl hp
        · simp at hp
          exact Or.inr (by omega)
        · simp [fetchCalls] at hp
      · exact Or.inr hp


theorem ingestLoop_terminates (env : Env) :
    ∀ (fuel : Nat) (i : Int) (w : World), (201 - i).toNat < fuel →
      ∀ o, ingestLoop env fuel i w ≠ .outOfFuel o := by
  intro fuel
  induction fuel with
  | zero => intro i w h; omega
  | succ fuel ih =>
    intro i w hfuel o
    rcases ingestLoop_cases env fuel i w with ⟨_, h⟩ | ⟨_, _, h⟩ | ⟨_, docs, e, _, _, h⟩ |
        ⟨hi, docs, hf, hne, _, h⟩
    · rw [h]; exact fun hc => by cases hc
    · rw [h]; exact fun hc => by cases hc
    · rw [h]; exact fun hc => by cases hc
    · rw [h]
      exact ih (i + 1) _ (by omega) o

theorem main_terminates (env : Env) (store0 : List JSON) :
    ∀ o, main env store0 ≠ .outOfFuel o := by
  intro o
  have h1 := ingestLoop_terminates env 202 0 { store := store0, trace := [] } (by decide)
  rw [main_eq]
  cases h : ingestLoop env 202 0 { store := store0, trace := [] } with
  | completed w =>
    simp only
    have h2 := (getLatestRecord_observations env w).2.2.2.2
    cases h3 : getLatestRecord env w with
    | completed w1 => exact fun hc => by cases hc
    | fatal w1 => exact fun hc => by cases hc
    | outOfFuel w1 => exact absurd h3 (h2 w1)
  | fatal w => exact fun hc => by cases hc
  | outOfFuel w => exact absurd h (h1 w)

theorem successTrace_observations (env : Env) :
    ∀ (n i : Nat),
      fetchCalls (successTrace env i n) =
        (List.range' i n).map (fun j : Nat => ((j : Int), (1615746153 : Int))) ∧
      httpGets (successTrace env i n) =
        (List.range' i n).map (fun j : Nat => eventsURL j 1615746153) ∧
      writes (successTrace env i n) = (List.range' i n).map (fun j : Nat => fetched env j) ∧
      printed (successTrace env i n) = List.replicate n "." ∧
      queried (successTrace env i n) = false := by
  intro n
  induction n with
  | zero => intro i; simp [successTrace, fetchCalls, httpGets, writes, printed, queried]
  | succ n ih =>
    intro i
    obtain ⟨h1, h2, h3, h4, h5⟩ := ih (i + 1)
    obtain ⟨o1, o2, o3, o4, o5⟩ := fetchActions_observations env i
    have e1 : fetchCalls [Action.insertMany (fetched env i), Action.stdout "."] = [] := rfl
    have e2 : httpGets [Action.insertMany (fetched env i), Action.stdout "."] = [] := rfl
    have e3 : writes [Action.insertMany (fetched env i), Action.stdout "."] = [fetched env i] := rfl
    have e4 : printed [Action.insertMany (fetched env i), Action.stdout "."] = ["."] := rfl
    have e5 : queried [Action.insertMany (fetched env i), Action.stdout "."] = false := rfl
    simp only [successTrace, fetchCalls_append, httpGets_append, writes_append, printed_append,
      queried_append, h1, h2, h3, h4, h5, o1, o2, o3, o4, o5, e1, e2, e3, e4, e5,
      List.range'_succ, List.map_cons, List.append_nil, List.nil_append, List.singleton_append,
      List.replicate_succ, Bool.or_self, and_self]

theorem ingestLoop_prefix (env : Env) (store0 : List JSON) (k : Nat) (hk : k ≤ 201)
    (hins : ∀ j : Nat, j < k →
      (insertMany env (store0 ++ ingested env j) (fetched env j)).1 = none) :
    ∀ (n i fuel : Nat) (w : World), i + n = k → w.store = store0 ++ ingested env i →
      ingestLoop env (fuel + n) i w =
        ingestLoop env fuel k
          { store := store0 ++ ingested env k, trace := w.trace ++ successTrace env i n } := by
  intro n
  induction n with
  | zero =>
    intro i fuel w hi hst
    have : i = k := by omega
    subst this
    cases w with
    | mk st tr =>
      simp only [successTrace, List.append_nil, Nat.add_zero]
      simp only at hst
      rw [hst]
  | succ n ih =>
    intro i fuel w hi hst
    have hok := hins i (by omega)
    rw [← hst] at hok
    obtain ⟨docs, hdocs, _, _, hst2⟩ := insertMany_ok env w.store _ hok
    rw [hdocs] at hok hst2
    have hstep := ingestLoop_insert_ok env (fuel + n) i w (by omega) docs hdocs hok
    have e : fuel + (n + 1) = fuel + n + 1 := by omega
    rw [e, hstep]
    have hi2 : ((i : Int) + 1) = ((i + 1 : Nat) : Int) := by push_cast; rfl
    rw [hi2, ih (i + 1) fuel _ (by omega)
      (by
        show (insertMany env w.store (some docs)).2 = _
        rw [hst2, hst]
        simp only [ingested, hdocs, Option.getD_some, List.append_assoc])]
    simp only [successTrace, hdocs, List.append_assoc]


theorem mem_fetchCalls (tr : List Action) (p t : Int) :
    (p, t) ∈ fetchCalls tr ↔ Action.fetchCall p t ∈ tr := by
  unfold fetchCalls
  rw [List.mem_filterMap]
  constructor
  · rintro ⟨a, ha, h⟩
    cases a <;> simp at h
    obtain ⟨rfl, rfl⟩ := h
    exact ha
  · intro h
    exact ⟨_, h, rfl⟩

theorem main_of_loop_fatal (env : Env) (store0 : List JSON) (w : World)
    (h : ingestLoop env 202 0 { store := store0, trace := [] } = .fatal w) :
    main env store0 = .fatal w := by
  rw [main_eq, h]

/-- C1: when every page 0..200 is fetched non-empty and every insert succeeds,
`main` calls `fetchEvents` exactly 201 times, for the pages 0, 1, ..., 200 in
this order and always with the time 1615746153, and calls `InsertMany` exactly
201 times, the i-th call with exactly the documents of the i-th fetch; no page
above 200 is fetched. -/
theorem main_full_run (env : Env) (store0 : List JSON) (page : Nat → List JSON)
    (hfetch : ∀ j : Nat, j ≤ 200 → fetched env j = some (page j) ∧ page j ≠ [])
    (hins : ∀ j : Nat, j ≤ 200 →
      (insertMany env (store0 ++ ingested env j) (some (page j))).1 = none) :
    fetchCalls (main env store0).world.trace =
      (List.range 201).map (fun j : Nat => ((j : Int), (1615746153 : Int))) ∧
    writes (main env store0).world.trace =
      (List.range 201).map (fun j : Nat => some (page j)) ∧
    (fetchCalls (main env store0).world.trace).length = 201 ∧
    (writes (main env store0).world.trace).length = 201 ∧
    (∀ p t, Action.fetchCall p t ∈ (main env store0).world.trace → 0 ≤ p ∧ p ≤ 200) := by
  have hloop := ingestLoop_prefix env store0 201 (le_refl _)
    (fun j hj => by rw [(hfetch j (by omega)).1]; exact hins j (by omega))
    201 0 1 { store := store0, trace := [] } (by omega) (by simp [ingested])
  have hexit := ingestLoop_exit env 0 (201 : Nat)
    { store := store0 ++ ingested env 201,
      trace := ([] : List Action) ++ successTrace env 0 201 } (by norm_num)
  have h202 : ingestLoop env 202 0 { store := store0, trace := [] } =
      .completed { store := store0 ++ ingested env 201,
                   trace := ([] : List Action) ++ successTrace env 0 201 } := by
    rw [← hexit, ← hloop]
    rfl
  obtain ⟨m1, _, m3, _⟩ := main_observations env store0
  obtain ⟨s1, _, s3, _, _⟩ := successTrace_observations env 201 0
  have hf : fetchCalls (main env store0).world.trace =
      (List.range 201).map (fun j : Nat => ((j : Int), (1615746153 : Int))) := by
    rw [m1, h202, List.range_eq_range']
    simpa [Outcome.world] using s1
  have hw : writes (main env store0).world.trace =
      (List.range 201).map (fun j : Nat => some (page j)) := by
    rw [m3, h202, List.range_eq_range']
    simp only [Outcome.world, List.nil_append, s3]
    apply List.map_congr_left
    intro j hj
    have : j < 201 := by
      have := List.mem_range'.1 hj
      omega
    exact (hfetch j (by omega)).1
  refine ⟨hf, hw, by rw [hf]; simp, by rw [hw]; simp, ?_⟩
  intro p t hp
  rw [← mem_fetchCalls, hf, List.mem_map] at hp
  obtain ⟨j, hj, hjp⟩ := hp
  have hj2 := List.mem_range.1 hj
  have : (j : Int) = p := by simpa using congrArg Prod.fst hjp
  omega


theorem main_full_run_witness :
    (∀ j : Nat, j ≤ 200 →
      fetched endlessEnv j = some [eventDoc "1" "2021-03-14T11:42:27.000000"] ∧
      [eventDoc "1" "2021-03-14T11:42:27.000000"] ≠ []) ∧
    (∀ j : Nat, j ≤ 200 →
      (insertMany endlessEnv ([] ++ ingested endlessEnv j)
        (some [eventDoc "1" "2021-03-14T11:42:27.000000"])).1 = none) ∧
    fetchCalls (main endlessEnv []).world.trace =
      (List.range 201).map (fun j : Nat => ((j : Int), (1615746153 : Int))) ∧
    writes (main endlessEnv []).world.trace =
      (List.range 201).map (fun _ : Nat => some [eventDoc "1" "2021-03-14T11:42:27.000000"]) :=
  have h1 : ∀ j : Nat, j ≤ 200 →
      fetched endlessEnv j = some [eventDoc "1" "2021-03-14T11:42:27.000000"] ∧
      [eventDoc "1" "2021-03-14T11:42:27.000000"] ≠ [] :=
    fun _ _ => ⟨rfl, List.cons_ne_nil _ _⟩
  have h2 : ∀ j : Nat, j ≤ 200 →
      (insertMany endlessEnv ([] ++ ingested endlessEnv j)
        (some [eventDoc "1" "2021-03-14T11:42:27.000000"])).1 = none :=
    fun _ _ => rfl
  have h := main_full_run endlessEnv []
    (fun _ => [eventDoc "1" "2021-03-14T11:42:27.000000"]) h1 h2
  ⟨h1, h2, h.1, h.2.1⟩

theorem main_threeThenEmptyEnv :
    main threeThenEmptyEnv [] =
      .fatal
        { store := [eventDoc "1" "2021-03-14T11:42:27.000000",
                    eventDoc "2" "2021-03-14T11:40:03.000000",
                    eventDoc "3" "2021-03-14T11:41:55.000000"]
          trace :=
            [.fetchCall 0 1615746153,
             .httpGet "https://api.opensea.io/api/v1/events?only_opensea=false&offset=0&limit=50&occurred_before=1615746153&event_type=successful",
             .insertMany (some [eventDoc "1" "2021-03-14T11:42:27.000000",
                                eventDoc "2" "2021-03-14T11:40:03.000000",
                                eventDoc "3" "2021-03-14T11:41:55.000000"]),
             .stdout ".",
             .fetchCall 1 1615746153,
             .httpGet "https://api.opensea.io/api/v1/events?only_opensea=false&offset=50&limit=50&occurred_before=1615746153&event_type=successful",
             .insertMany (some []),
             .logFatal .emptySlice] } := by
  rfl

/-- C2: when `fetchEvents` returns no documents for page `k` (the nil slice or
a non-nil empty slice), `main` fetches no page above `k`. -/
theorem no_fetch_after_empty_page (env : Env) (store0 : List JSON) (k : Nat)
    (hk : fetched env k = none ∨ fetched env k = some [])
    (p t : Int) (hp : Action.fetchCall p t ∈ (main env store0).world.trace) : p ≤ k := by
  rw [← mem_fetchCalls, (main_observations env store0).1] at hp
  rcases ingestLoop_fetchCalls_bound env k hk 202 0 _ (by omega) p t hp with h | h
  · simp [fetchCalls] at h
  · exact h

theorem no_fetch_after_empty_page_witness :
    (fetched threeThenEmptyEnv (1 : Nat) = none ∨ fetched threeThenEmptyEnv (1 : Nat) = some []) ∧
    Action.fetchCall 1 1615746153 ∈ (main threeThenEmptyEnv []).world.trace ∧
    (1 : Int) ≤ (1 : Nat) :=
  have hp : Action.fetchCall 1 1615746153 ∈ (main threeThenEmptyEnv []).world.trace := by
    rw [main_threeThenEmptyEnv]
    simp [Outcome.world]
  ⟨Or.inr rfl, hp,
    no_fetch_after_empty_page threeThenEmptyEnv [] 1 (Or.inr rfl) 1 1615746153 hp⟩


/-- C4: when the inserts of pages `0 .. k-1` succeed and `InsertMany` fails for
the page fetched at `k`, the run ends in `log.Fatal`: the pages fetched are
exactly `0 .. k`, the inserts attempted are exactly those of pages `0 .. k`,
`getLatestRecord` is not called, "Program complete" is not printed, and the
collection still begins with its initial documents followed by the batches of
pages `0 .. k-1`. -/
theorem write_failure_aborts (env : Env) (store0 : List JSON) (k : Nat) (hk : k ≤ 200)
    (hprev : ∀ j : Nat, j < k →
      (insertMany env (store0 ++ ingested env j) (fetched env j)).1 = none)
    (docs : List JSON) (e : GoError) (hfk : fetched env k = some docs)
    (hfail : (insertMany env (store0 ++ ingested env k) (some docs)).1 = some e) :
    ∃ w, main env store0 = .fatal w ∧
      fetchCalls w.trace = (List.range (k + 1)).map (fun j : Nat => ((j : Int), (1615746153 : Int))) ∧
      writes w.trace = (List.range (k + 1)).map (fun j : Nat => fetched env j) ∧
      queried w.trace = false ∧
      "Program complete\n" ∉ printed w.trace ∧
      (store0 ++ ingested env k) <+: w.store := by
  have hloop := ingestLoop_prefix env store0 k (by omega) hprev
    k 0 (202 - k) { store := store0, trace := [] } (by omega) (by simp [ingested])
  have hfuel : 202 - k + k = 202 := by omega
  rw [hfuel] at hloop
  obtain ⟨f, hf⟩ : ∃ f, 202 - k = f + 1 := ⟨201 - k, by omega⟩
  rw [hf] at hloop
  have hstep := ingestLoop_insert_error env f k
    { store := store0 ++ ingested env k, trace := ([] : List Action) ++ successTrace env 0 k }
    (by exact_mod_cast hk) docs hfk e hfail
  refine ⟨_, main_of_loop_fatal env store0 _ (hloop.trans hstep), ?_, ?_, ?_, ?_, ?_⟩
  all_goals
    obtain ⟨s1, _, s3, s4, s5⟩ := successTrace_observations env k 0
    obtain ⟨o1, _, o3, o4, o5⟩ := fetchActions_observations env k
  · have e1 : fetchCalls [Action.insertMany (some docs), Action.logFatal e] = [] := rfl
    simp only [fetchCalls_append, s1, o1, e1, List.nil_append, List.append_nil,
      List.range_succ, List.map_append, List.map_cons, List.map_nil, List.range_eq_range']
  · have e1 : writes [Action.insertMany (some docs), Action.logFatal e] = [some docs] := rfl
    simp only [writes_append, s3, o3, e1, List.nil_append, List.append_nil,
      List.range_succ, List.map_append, List.map_cons, List.map_nil, hfk, List.range_eq_range']
  · have e1 : queried [Action.insertMany (some docs), Action.logFatal e] = false := rfl
    simp only [queried_append, s5, o5, e1, Bool.or_self]
    rfl
  · have e1 : printed [Action.insertMany (some docs), Action.logFatal e] = [] := rfl
    simp only [printed_append, s4, o4, e1, List.append_nil]
    intro hmem
    simp only [printed, List.filterMap_nil, List.nil_append] at hmem
    have := List.eq_of_mem_replicate hmem
    exact absurd this (by decide)
  · exact insertMany_prefix env _ _

theorem write_failure_aborts_witness :
    ∃ w, main secondWriteFailsEnv [] = .fatal w ∧
      fetchCalls w.trace = (List.range 2).map (fun j : Nat => ((j : Int), (1615746153 : Int))) ∧
      writes w.trace = (List.range 2).map (fun j : Nat => fetched secondWriteFailsEnv j) ∧
      queried w.trace = false ∧
      "Program complete\n" ∉ printed w.trace ∧
      ([] ++ ingested secondWriteFailsEnv 1) <+: w.store :=
  write_failure_aborts secondWriteFailsEnv [] 1 (by decide)
    (fun j hj => by
      have : j = 0 := by omega
      subst this
      rfl)
    [eventDoc "1" "2021-03-14T11:42:27.000000"] .serverWrite rfl rfl


theorem ingestLoop_store_prefix (env : Env) :
    ∀ (fuel : Nat) (i : Int) (w : World), w.store <+: (ingestLoop env fuel i w).world.store := by
  intro fuel
  induction fuel with
  | zero => intro i w; exact List.prefix_refl _
  | succ fuel ih =>
    intro i w
    rcases ingestLoop_cases env fuel i w with ⟨_, h⟩ | ⟨_, _, h⟩ | ⟨_, docs, e, _, _, h⟩ |
        ⟨_, docs, hf, hne, _, h⟩
    · rw [h]; exact List.prefix_refl _
    · rw [h]; exact List.prefix_refl _
    · rw [h]; exact insertMany_prefix env _ _
    · rw [h]
      exact (List.prefix_append w.store docs).trans
        (ih (i + 1)
          { store := w.store ++ docs,
            trace := w.trace ++ fetchActions env i ++ [.insertMany (some docs), .stdout "."] })

/-- C9: when the collection holds no document at the time `getLatestRecord`
runs, the run ends in `log.Fatal`. The loop then ended at page 0 with a nil
result, so the whole output of the run is the line "No events returned": no
timestamp string, no cursor value, no "Program complete". -/
theorem empty_store_is_fatal (env : Env) (store0 : List JSON) (w : World)
    (hloop : ingestLoop env 202 0 { store := store0, trace := [] } = .completed w)
    (hempty : w.store = []) :
    ∃ e, main env store0 =
        .fatal { store := [],
                 trace := fetchActions env 0 ++
                   [.stdout "No events returned\n", .findOne, .logFatal e] } ∧
      printed (main env store0).world.trace = ["No events returned\n"] := by
  have hw : w = { store := [], trace := fetchActions env 0 ++ [.stdout "No events returned\n"] } := by
    rcases ingestLoop_cases env 201 0 { store := store0, trace := [] } with
      ⟨h0, _⟩ | ⟨_, _, h⟩ | ⟨_, docs, e, _, _, h⟩ | ⟨_, docs, hf, hne, _, h⟩
    · exact absurd (by norm_num : (0 : Int) ≤ 200) h0
    · rw [h] at hloop
      injection hloop with hloop
      rw [← hloop] at hempty ⊢
      simp only at hempty
      simp [hempty]
    · rw [h] at hloop
      cases hloop
    · rw [h] at hloop
      have hp := ingestLoop_store_prefix env 201 (0 + 1)
        { store := store0 ++ docs,
          trace := [] ++ fetchActions env 0 ++ [.insertMany (some docs), .stdout "."] }
      rw [hloop] at hp
      simp only [Outcome.world, hempty, List.prefix_nil] at hp
      simp at hp
      exact absurd hp.2 hne
  subst hw
  have hfind : ∃ e, findOneDecode env [] = .error e := by
    unfold findOneDecode
    by_cases hr : env.readFault [] = true
    · exact ⟨.serverRead, by simp [hr]⟩
    · exact ⟨.noDocuments, by simp [hr, earliest]⟩
  obtain ⟨e, he⟩ := hfind
  have hmain : main env store0 =
      .fatal { store := [],
               trace := fetchActions env 0 ++
                 [.stdout "No events returned\n", .findOne, .logFatal e] } := by
    simp only [main_eq, hloop, getLatestRecord_eq, he, List.append_assoc, List.cons_append,
      List.nil_append]
  refine ⟨e, hmain, ?_⟩
  rw [hmain]
  obtain ⟨_, _, _, o4, _⟩ := fetchActions_observations env 0
  simp only [Outcome.world, printed_append, o4, List.nil_append]
  rfl

theorem empty_store_is_fatal_witness :
    ∃ e, main offlineEnv [] =
        .fatal { store := [],
                 trace := fetchActions offlineEnv 0 ++
                   [.stdout "No events returned\n", .findOne, .logFatal e] } ∧
      printed (main offlineEnv []).world.trace = ["No events returned\n"] :=
  empty_store_is_fatal offlineEnv []
    { store := [],
      trace := fetchActions offlineEnv 0 ++ [.stdout "No events returned\n"] } rfl rfl

theorem timeParse_error (s : String) (e : GoError) (h : (timeParse s).2 = some e) :
    (timeParse s).1 = Time.zero ∧ e = .timeParse s := by
  unfold timeParse at h ⊢
  cases hp : parseFields s.toList with
  | none =>
    rw [hp] at h
    exact ⟨rfl, by cases h; rfl⟩
  | some f =>
    rw [hp] at h
    dsimp only at h ⊢
    by_cases hd : (f.day < 1 || f.day > daysIn f.month f.year) = true
    · rw [if_pos hd] at h ⊢
      exact ⟨rfl, by cases h; rfl⟩
    · rw [if_neg hd] at h
      cases h

/-- C10: when the creation date found by `getLatestRecord` does not parse in
the layout, the error is logged with `log.Print` and the run goes on: the raw
string is printed, then the unix value of the zero time, -62135596800, which
does not depend on the string, then "Program complete". -/
theorem parse_failure_is_recoverable (env : Env) (store0 : List JSON) (w : World) (s : String)
    (e : GoError)
    (hloop : ingestLoop env 202 0 { store := store0, trace := [] } = .completed w)
    (hfind : findOneDecode env w.store = .ok { CreatedDate := s })
    (hbad : (timeParse s).2 = some e) :
    main env store0 =
      .completed { store := w.store,
                   trace := w.trace ++
                     [.findOne, .stdout (s ++ "\n"), .logPrint (.timeParse s),
                      .stdout "-62135596800\n", .stdout "Program complete\n"] } := by
  obtain ⟨hz, he⟩ := timeParse_error s e hbad
  have hu : toString Time.zero.Unix = "-62135596800" := by decide
  simp only [main_eq, hloop, getLatestRecord_eq, hfind, hbad, hz, he, hu, List.append_assoc,
    List.cons_append, List.nil_append]
  simp

theorem parse_failure_is_recoverable_witness :
    main badDateEnv [] =
      .completed { store := [eventDoc "1" "2021-03-14 11:42:27"],
                   trace := (fetchActions badDateEnv 0 ++
                       [.insertMany (some [eventDoc "1" "2021-03-14 11:42:27"]), .stdout "."] ++
                       fetchActions badDateEnv 1 ++ [.stdout "No events returned\n"]) ++
                     [.findOne, .stdout ("2021-03-14 11:42:27" ++ "\n"),
                      .logPrint (.timeParse "2021-03-14 11:42:27"),
                      .stdout "-62135596800\n", .stdout "Program complete\n"] } :=
  parse_failure_is_recoverable badDateEnv []
    { store := [eventDoc "1" "2021-03-14 11:42:27"],
      trace := fetchActions badDateEnv 0 ++
        [.insertMany (some [eventDoc "1" "2021-03-14 11:42:27"]), .stdout "."] ++
        fetchActions badDateEnv 1 ++ [.stdout "No events returned\n"] }
    "2021-03-14 11:42:27" (.timeParse "2021-03-14 11:42:27") rfl rfl rfl


/-- C6: for a page in 0..200, `fetchEvents` issues exactly one GET request; its
URL carries `offset` = page * 50 and `limit` = 50, the time as
`occurred_before`, all in decimal, and the offset lies in 0..10000. -/
theorem fetchEvents_request (env : Env) (page time : Int) (w : World)
    (h0 : 0 ≤ page) (h1 : page ≤ 200) :
    httpGets (fetchEvents env page time w).2.trace =
      httpGets w.trace ++
        ["https://api.opensea.io/api/v1/events?only_opensea=false&offset="
          ++ toString (page * 50) ++ "&limit=50&occurred_before=" ++ toString time
          ++ "&event_type=successful"] ∧
    0 ≤ page * 50 ∧ page * 50 ≤ 10000 := by
  refine ⟨?_, by omega, by omega⟩
  rw [fetchEvents_snd]
  have hl := (fetchLog_observations env page time).2.1
  have e1 : httpGets (Action.fetchCall page time :: Action.httpGet (eventsURL page time) ::
      fetchLog env page time) = eventsURL page time :: httpGets (fetchLog env page time) := rfl
  simp only [httpGets_append, e1, hl]
  rw [eventsURL, wrap64_of_small (page * 50) (by omega) (by omega)]

theorem fetchEvents_request_witness :
    httpGets (fetchEvents offlineEnv 200 1615746153 { store := [], trace := [] }).2.trace =
      ["https://api.opensea.io/api/v1/events?only_opensea=false&offset=10000&limit=50&occurred_before=1615746153&event_type=successful"] ∧
    (0 : Int) ≤ 200 * 50 ∧ (200 : Int) * 50 ≤ 10000 :=
  fetchEvents_request offlineEnv 200 1615746153 { store := [], trace := [] }
    (by decide) (by decide)

/-- C5, at the failing input: for the body `{"asset_events": [e], "asset_events": 7}`
`json.Unmarshal` returns an error, and `fetchEvents` still returns the slice
`[e]`; `main` inserts it and goes on to fetch page 1. -/
theorem decode_error_still_returns_events :
    (jsonUnmarshal duplicateKeyBody { Events := none }).2 = true ∧
    fetched duplicateKeyEnv 0 = some [eventDoc "1" "2021-03-14T11:42:27.000000"] ∧
    writes (main duplicateKeyEnv []).world.trace =
      [some [eventDoc "1" "2021-03-14T11:42:27.000000"]] ∧
    fetchCalls (main duplicateKeyEnv []).world.trace = [(0, 1615746153), (1, 1615746153)] :=
  ⟨rfl, rfl, rfl, rfl⟩

theorem fetched_none_of_failure (env : Env) (page : Int)
    (h : (∃ d, env.http (eventsURL page 1615746153) = .requestFailed d) ∨
         (∃ d, env.http (eventsURL page 1615746153) = .readFailed d) ∨
         env.http (eventsURL page 1615746153) = .body .malformed ∨
         (∃ j, env.http (eventsURL page 1615746153) = .body (.value j) ∧
            ∀ members, j ≠ .obj members)) :
    fetched env page = none := by
  unfold fetched fetchEvents
  rcases h with ⟨d, h⟩ | ⟨d, h⟩ | h | ⟨j, h, hj⟩
  · simp [h]
  · simp [h]
  · simp [h, jsonUnmarshal]
  · simp only [h]
    cases j with
    | obj members => exact absurd rfl (hj members)
    | _ => simp [jsonUnmarshal]


/-- C3, at the failing input: page 0 holds three documents and page 1 is the
body `{"asset_events": []}`. `fetchEvents` returns a non-nil empty slice for
page 1, `main` passes it to `InsertMany`, which rejects it, and the run ends
in `log.Fatal`: two inserts are attempted, `getLatestRecord` is not called. -/
theorem empty_page_is_fatal :
    fetched threeThenEmptyEnv 1 = some [] ∧
    ∃ w, main threeThenEmptyEnv [] = .fatal w ∧
      writes w.trace =
        [some [eventDoc "1" "2021-03-14T11:42:27.000000",
               eventDoc "2" "2021-03-14T11:40:03.000000",
               eventDoc "3" "2021-03-14T11:41:55.000000"],
         some []] ∧
      queried w.trace = false ∧
      printed w.trace = ["."] :=
  ⟨rfl, _, main_threeThenEmptyEnv, rfl, rfl, rfl⟩

theorem digitChar_isDigit (n : Nat) : isDigitChar (digitChar n) = true := by
  unfold digitChar
  have h : n % 10 < 10 := Nat.mod_lt _ (by decide)
  generalize n % 10 = k at h
  interval_cases k <;> decide

theorem digitChar_val (n : Nat) : digitVal (digitChar n) = ((n % 10 : Nat) : Int) := by
  unfold digitChar
  have h : n % 10 < 10 := Nat.mod_lt _ (by decide)
  generalize n % 10 = k at h
  interval_cases k <;> decide

theorem digitChar_not_sep (n : Nat) :
    digitChar n ≠ '-' ∧ digitChar n ≠ '+' ∧ digitChar n ≠ '.' ∧ digitChar n ≠ ',' := by
  unfold digitChar
  have h : n % 10 < 10 := Nat.mod_lt _ (by decide)
  generalize n % 10 = k at h
  interval_cases k <;> decide


theorem leapYear_iff (y : Nat) :
    leapYear y = true ↔ (y % 4 = 0 ∧ (y % 100 ≠ 0 ∨ y % 400 = 0)) := by
  simp [leapYear]

theorem isLeap_cast (y : Nat) : isLeap (y : Int) = leapYear y := by
  unfold isLeap leapYear
  have h4 : ((y : Int) % 4 == 0) = (y % 4 == 0) := by
    rw [Bool.eq_iff_iff]; simp only [beq_iff_eq]; omega
  have h100 : ((y : Int) % 100 != 0) = (y % 100 != 0) := by
    rw [Bool.eq_iff_iff]; simp only [bne_iff_ne, ne_eq]; omega
  have h400 : ((y : Int) % 400 == 0) = (y % 400 == 0) := by
    rw [Bool.eq_iff_iff]; simp only [beq_iff_eq]; omega
  rw [h4, h100, h400]

theorem daysBeforeYear_closed (y : Nat) :
    daysBeforeYear y + (y + 99) / 100 = 365 * y + (y + 3) / 4 + (y + 399) / 400 := by
  induction y with
  | zero => simp [daysBeforeYear]
  | succ y ih =>
    unfold daysBeforeYear yearLength
    by_cases h : leapYear y = true
    · rw [if_pos h]
      rw [leapYear_iff] at h
      omega
    · rw [if_neg h]
      rw [leapYear_iff] at h
      omega

theorem daysBeforeYear_1970 : daysBeforeYear 1970 = 719528 := by
  have := daysBeforeYear_closed 1970
  omega


theorem norm_id (hi lo base : Int) (h0 : 0 ≤ lo) (h1 : lo < base) : norm hi lo base = (hi, lo) := by
  unfold norm
  have a : ¬ lo < 0 := by omega
  have b : ¬ lo ≥ base := by omega
  simp only [a, b, if_false]

theorem daysSinceEpoch_eq (y : Nat) (hy : y ≤ 9999) :
    daysSinceEpoch (y : Int) + ((y : Int) + 99) / 100 =
      106751990353566 + 365 * (y : Int) + ((y : Int) + 3) / 4 + ((y : Int) + 399) / 400 := by
  have hY : wrapU64 ((y : Int) - absoluteZeroYear) = (y : Int) + 292277022399 := by
    unfold wrapU64 absoluteZeroYear
    omega
  obtain ⟨q, r, hq, hr0, hr1⟩ : ∃ q r : Int, (y : Int) + 399 = 400 * q + r ∧ 0 ≤ r ∧ r < 400 :=
    ⟨((y : Int) + 399) / 400, ((y : Int) + 399) % 400, by omega, by omega, by omega⟩
  have hq0 : 0 ≤ q := by omega
  have hq1 : q ≤ 25 := by omega
  have h400 : ((y : Int) + 292277022399) / 400 = q + 730692555 := by omega
  obtain ⟨a, s, ha, hs0, hs1⟩ : ∃ a s : Int, r = 100 * a + s ∧ 0 ≤ s ∧ s < 100 :=
    ⟨r / 100, r % 100, by omega, by omega, by omega⟩
  obtain ⟨b, c, hb, hc0, hc1⟩ : ∃ b c : Int, s = 4 * b + c ∧ 0 ≤ c ∧ c < 4 :=
    ⟨s / 4, s % 4, by omega, by omega, by omega⟩
  have e1 : (y : Int) + 292277022399 - 400 * (q + 730692555) = r := by omega
  have e2 : r / 100 = a := by omega
  have e3 : r - 100 * a = s := by omega
  have e4 : s / 4 = b := by omega
  have e5 : s - 4 * b = c := by omega
  have hd : daysSinceEpoch (y : Int) =
      146097 * (q + 730692555) + 36524 * a + 1461 * b + 365 * c := by
    unfold daysSinceEpoch
    simp only [hY, h400, e1, e2, e3, e4, e5]
    unfold wrapU64
    omega
  rw [hd]
  omega


theorem daysSinceEpoch_days (y : Nat) (hy : y ≤ 9999) :
    daysSinceEpoch (y : Int) = 106751990353566 + (daysBeforeYear y : Int) := by
  have h1 := daysSinceEpoch_eq y hy
  have h2 := daysBeforeYear_closed y
  omega

theorem daysBeforeYear_le (y : Nat) (hy : y ≤ 9999) : daysBeforeYear y ≤ 3652060 := by
  have h2 := daysBeforeYear_closed y
  omega

theorem unixToInternal_eq : unixToInternal = 62135596800 := by
  unfold unixToInternal secondsPerDay
  norm_num

theorem wrap64_wrap64_add (x c : Int) : wrap64 (wrap64 x + c) = wrap64 (x + c) := by
  unfold wrap64
  omega

theorem unix_of_abs (a : Int) (h0 : -(2 ^ 63) ≤ a - 9223372028715321600)
    (h1 : a - 9223372028715321600 + 62135596800 < 2 ^ 63) :
    wrap64 (wrap64 (wrap64 (wrap64 a + -9223372028715321600) + 62135596800) + -62135596800) =
      a - 9223372028715321600 := by
  rw [wrap64_wrap64_add, wrap64_wrap64_add]
  unfold wrap64
  omega

theorem monthStart (Y M : Nat) (h1 : 1 ≤ M) (h12 : M ≤ 12) :
    ∃ t : Int, daysBefore.getD ((M : Int) - 1 + 1 - 1).toNat 0 = t ∧ 0 ≤ t ∧ t ≤ 334 ∧
      (daysInMonths Y (M - 1) : Int) =
        t + (if (leapYear Y && decide ((M : Int) - 1 + 1 ≥ 3)) = true then 1 else 0) := by
  have hleap : leapYear Y = true ∨ leapYear Y = false := by
    cases leapYear Y <;> simp
  interval_cases M <;> rcases hleap with hl | hl <;>
    simp [hl, daysBefore, daysInMonths, monthLength]

theorem Date_Unix (c : Civil) (hv : c.Valid) (nsec : Int) (h0 : 0 ≤ nsec)
    (h1 : nsec < 1000000000) :
    (Date c.year c.month c.day c.hour c.min c.sec nsec).Unix = c.unix := by
  obtain ⟨Y, M, D, h, mi, s⟩ := c
  obtain ⟨hy, hm1, hm12, hd1, hdm, hh, hmi, hs⟩ := hv
  simp only at hy hm1 hm12 hd1 hdm hh hmi hs
  have hdse := daysSinceEpoch_days Y hy
  have hdby := daysBeforeYear_le Y hy
  have h1970 := daysBeforeYear_1970
  have hdm31 : D ≤ 31 := by
    unfold monthLength at hdm
    split_ifs at hdm <;> omega
  obtain ⟨t, ht, ht0, ht1, hdim⟩ := monthStart Y M hm1 hm12
  unfold Date
  simp only [norm_id (Y : Int) ((M : Int) - 1) 12 (by omega) (by omega),
    norm_id (s : Int) nsec 1000000000 h0 h1,
    norm_id (mi : Int) (s : Int) 60 (by omega) (by omega),
    norm_id (h : Int) (mi : Int) 60 (by omega) (by omega),
    norm_id (D : Int) (h : Int) 24 (by omega) (by omega)]
  rw [isLeap_cast, hdse, ht]
  unfold Civil.unix Civil.dayNumber Time.Unix unixTime
  simp only [h1970, unixToInternal_eq, secondsPerDay, absoluteToInternal, internalToUnix]
  push_cast
  rw [hdim]
  have hdy0 : 0 ≤ (daysBeforeYear Y : Int) := by omega
  have hdy1 : (daysBeforeYear Y : Int) ≤ 3652060 := by omega
  generalize (daysBeforeYear Y : Int) = dy at hdy0 hdy1 ⊢
  have hD : (1 : Int) ≤ D ∧ (D : Int) ≤ 31 := by omega
  have hh2 : (h : Int) ≤ 23 := by omega
  have hmi2 : (mi : Int) ≤ 59 := by omega
  have hs2 : (s : Int) ≤ 59 := by omega
  have w1 : wrapU64 t = t := wrapU64_of_small t (by omega) (by norm_num; omega)
  have w2 : wrapU64 (106751990353566 + dy + t) = 106751990353566 + dy + t :=
    wrapU64_of_small _ (by omega) (by norm_num; omega)
  have w3 : wrapU64 (106751990353566 + dy + t + 1) = 106751990353566 + dy + t + 1 :=
    wrapU64_of_small _ (by omega) (by norm_num; omega)
  have w4 : wrapU64 ((D : Int) - 1) = (D : Int) - 1 :=
    wrapU64_of_small _ (by omega) (by norm_num; omega)
  have w5 : wrapU64 ((h : Int) * 3600 + (mi : Int) * 60 + (s : Int)) =
      (h : Int) * 3600 + (mi : Int) * 60 + (s : Int) :=
    wrapU64_of_small _ (by omega) (by norm_num; omega)
  have hcast : ((D - 1 : Nat) : Int) = (D : Int) - 1 := by omega
  obtain ⟨L, hLe, hL0, hL1⟩ : ∃ L : Int,
      (if (leapYear Y && decide ((M : Int) - 1 + 1 ≥ 3)) = true then (1 : Int) else 0) = L ∧
        0 ≤ L ∧ L ≤ 1 := by
    by_cases hl : (leapYear Y && decide ((M : Int) - 1 + 1 ≥ 3)) = true
    · exact ⟨1, by simp only [hl, if_true], by omega, by omega⟩
    · exact ⟨0, by simp only [hl]; rfl, by omega, by omega⟩
  have hif : (if (leapYear Y && decide ((M : Int) - 1 + 1 ≥ 3)) = true then
        wrapU64 (wrapU64 (106751990353566 + dy + wrapU64 t) + 1)
      else wrapU64 (106751990353566 + dy + wrapU64 t)) = 106751990353566 + dy + t + L := by
    rw [← hLe, w1, w2, w3]
    by_cases hl : (leapYear Y && decide ((M : Int) - 1 + 1 ≥ 3)) = true
    · simp only [hl, if_true]
    · simp only [hl]
      simp
  rw [hif, hLe, w4, w5, hcast]
  have w6 : wrapU64 (106751990353566 + dy + t + L + ((D : Int) - 1)) =
      106751990353566 + dy + t + L + ((D : Int) - 1) :=
    wrapU64_of_small _ (by omega) (by norm_num; omega)
  have w7 : wrapU64 ((106751990353566 + dy + t + L + ((D : Int) - 1)) * 86400) =
      (106751990353566 + dy + t + L + ((D : Int) - 1)) * 86400 :=
    wrapU64_of_small _ (by omega) (by norm_num; omega)
  have w8 : wrapU64 ((106751990353566 + dy + t + L + ((D : Int) - 1)) * 86400 +
        ((h : Int) * 3600 + (mi : Int) * 60 + (s : Int))) =
      (106751990353566 + dy + t + L + ((D : Int) - 1)) * 86400 +
        ((h : Int) * 3600 + (mi : Int) * 60 + (s : Int)) :=
    wrapU64_of_small _ (by omega) (by norm_num; omega)
  rw [w6, w7, w8]
  rw [unix_of_abs _ (by norm_num; omega) (by norm_num; omega)]
  omega


theorem leadingInt_digits :
    ∀ (ds : List Nat) (x : Int) (k : Nat), 0 ≤ x → x < 10 ^ k → k + ds.length ≤ 17 →
      ∃ v : Int, leadingInt (ds.map digitChar) x = some (v, []) ∧ 0 ≤ v ∧
        v < 10 ^ (k + ds.length) ∧
        v = ds.foldl (fun (a : Int) (d : Nat) => a * 10 + ((d % 10 : Nat) : Int)) x := by
  intro ds
  induction ds with
  | nil =>
    intro x k h0 h1 _
    exact ⟨x, by simp [leadingInt], h0, by simpa using h1, by simp⟩
  | cons d ds ih =>
    intro x k h0 h1 hk
    simp only [List.length_cons] at hk
    have hpow : (10 : Int) ^ k ≤ 10 ^ 16 := by
      apply pow_le_pow_right₀ (by norm_num)
      omega
    have hx : ¬ x > 2 ^ 63 / 10 := by
      have : (10 : Int) ^ 16 < 2 ^ 63 / 10 := by norm_num
      omega
    have hd : 0 ≤ ((d % 10 : Nat) : Int) ∧ ((d % 10 : Nat) : Int) < 10 := by omega
    have hx2 : ¬ x * 10 + ((d % 10 : Nat) : Int) > 2 ^ 63 := by
      have : (10 : Int) ^ 16 * 10 + 10 < 2 ^ 63 := by norm_num
      omega
    have hnext : x * 10 + ((d % 10 : Nat) : Int) < 10 ^ (k + 1) := by
      rw [pow_succ]
      omega
    obtain ⟨v, hv, hv0, hv1, hv2⟩ := ih (x * 10 + ((d % 10 : Nat) : Int)) (k + 1) (by omega) hnext
      (by omega)
    refine ⟨v, ?_, hv0, ?_, ?_⟩
    · simp only [List.map_cons, leadingInt, digitChar_isDigit, digitChar_val, if_true, hx, hx2,
        if_false]
      exact hv
    · have : k + 1 + ds.length = k + (ds.length + 1) := by omega
      rw [List.length_cons, ← this]
      exact hv1
    · rw [hv2]
      rfl

theorem atoi_digits (d : Nat) (ds : List Nat) (h : (d :: ds).length ≤ 17) :
    ∃ v : Int, atoi ((d :: ds).map digitChar) = some v ∧ 0 ≤ v ∧ v < 10 ^ (d :: ds).length ∧
      v = (d :: ds).foldl (fun (a : Int) (d : Nat) => a * 10 + ((d % 10 : Nat) : Int)) 0 := by
  obtain ⟨v, hv, hv0, hv1, hv2⟩ := leadingInt_digits (d :: ds) 0 0 (le_refl _) (by norm_num)
    (by omega)
  obtain ⟨h1, h2, _, _⟩ := digitChar_not_sep d
  refine ⟨v, ?_, hv0, by simpa using hv1, hv2⟩
  have hpow : (10 : Int) ^ (0 + (d :: ds).length) ≤ 10 ^ 17 :=
    pow_le_pow_right₀ (by norm_num) (by omega)
  have hw : wrap64 v = v := wrap64_of_small v (by omega) (by
    have : (10 : Int) ^ 17 < 2 ^ 63 := by norm_num
    omega)
  have e1 : (some (digitChar d) == some '-') = false := by simp [h1]
  have e2 : (some (digitChar d) == some '+') = false := by simp [h2]
  unfold atoi
  simp only [List.map_cons, List.head?_cons, e1, e2, Bool.or_self, Bool.false_eq_true, if_false]
  rw [← List.map_cons, hv]
  simp [hw]

theorem atoi_fourDigits (n : Nat) (hn : n ≤ 9999) : atoi (fourDigits n) = some (n : Int) := by
  obtain ⟨v, hv, _, _, hv2⟩ := atoi_digits (n / 1000) [n / 100, n / 10, n] (by simp)
  have : fourDigits n = [n / 1000, n / 100, n / 10, n].map digitChar := rfl
  rw [this, hv, hv2]
  simp only [List.foldl_cons, List.foldl_nil]
  congr 1
  omega

theorem getnum_twoDigits (n : Nat) (hn : n ≤ 99) (rest : List Char) (isFixed : Bool) :
    getnum (twoDigits n ++ rest) isFixed = some ((n : Int), rest) := by
  unfold getnum twoDigits
  simp only [List.cons_append, List.nil_append, isDigit, List.get?_cons_zero, List.get?_cons_succ,
    digitChar_isDigit, Bool.not_true, Bool.false_eq_true, if_false, List.getD_cons_zero,
    List.getD_cons_succ, digitChar_val, List.drop_succ_cons, List.drop_zero]
  congr 2
  omega

theorem skip_cons (c : Char) (rest : List Char) : skip (c :: rest) c = some rest := by
  simp [skip]


theorem takeWhile_digits (ds : List Nat) :
    (ds.map digitChar).takeWhile isDigitChar = ds.map digitChar := by
  induction ds with
  | nil => rfl
  | cons d ds ih => simp [List.takeWhile_cons, digitChar_isDigit, ih]

theorem parseFraction_fractionText (frac : List Nat) (hf : frac.length ≤ 9) :
    ∃ nsec : Int, parseFraction (fractionText frac) = some (nsec, []) ∧ 0 ≤ nsec ∧
      nsec < 1000000000 := by
  cases frac with
  | nil => exact ⟨0, by simp [parseFraction, fractionText], le_refl _, by norm_num⟩
  | cons d ds =>
    obtain ⟨v, hv, hv0, hv1, _⟩ := atoi_digits d ds (by omega)
    have hlen : (d :: ds).length = ds.length + 1 := rfl
    have hlen9 : ds.length + 1 ≤ 9 := hf
    refine ⟨v * 10 ^ (10 - (1 + (ds.length + 1))), ?_, by positivity, ?_⟩
    · unfold parseFraction fractionText
      have hi : ((('.' :: (d :: ds).map digitChar).drop 1).takeWhile isDigitChar).length =
          ds.length + 1 := by
        rw [List.drop_succ_cons, List.drop_zero, takeWhile_digits]
        simp
      have hcond : (('.' :: (d :: ds).map digitChar).length < 2 ||
          !commaOrPeriod (('.' :: (d :: ds).map digitChar).getD 0 ' ') ||
          !isDigitChar (('.' :: (d :: ds).map digitChar).getD 1 ' ')) = false := by
        simp [commaOrPeriod, digitChar_isDigit]
      simp only [hcond, hi, Bool.false_eq_true, if_false]
      unfold parseNanoseconds
      have hnb : ¬ (1 + (ds.length + 1) > 10) := by omega
      have htake : (('.' :: (d :: ds).map digitChar).take (1 + (ds.length + 1))).drop 1 =
          (d :: ds).map digitChar := by
        have : 1 + (ds.length + 1) = ((d :: ds).map digitChar).length + 1 := by simp; omega
        rw [this, List.take_succ_cons, List.take_length, List.drop_succ_cons, List.drop_zero]
      have hdrop : ('.' :: (d :: ds).map digitChar).drop (1 + (ds.length + 1)) = [] := by
        apply List.drop_eq_nil_of_le
        simp
        omega
      have hv0' : ¬ v < 0 := by omega
      simp only [hnb, if_false, htake, hv, hv0', hdrop]
      simp [commaOrPeriod]
    · have h1 : v < 10 ^ (ds.length + 1) := hv1
      have h2 : (10 : Int) ^ (ds.length + 1) * 10 ^ (10 - (1 + (ds.length + 1))) = 10 ^ 9 := by
        rw [← pow_add]
        congr 1
        omega
      have h3 : (0 : Int) < 10 ^ (10 - (1 + (ds.length + 1))) := by positivity
      calc v * 10 ^ (10 - (1 + (ds.length + 1)))
          < 10 ^ (ds.length + 1) * 10 ^ (10 - (1 + (ds.length + 1))) :=
            mul_lt_mul_of_pos_right h1 h3
        _ = 1000000000 := by rw [h2]; norm_num


theorem stampChars_eq (c : Civil) (frac : List Nat) :
    stampChars c frac =
      fourDigits c.year ++ ('-' :: (twoDigits c.month ++ ('-' :: (twoDigits c.day ++ ('T' ::
        (twoDigits c.hour ++ (':' :: (twoDigits c.min ++ (':' ::
          (twoDigits c.sec ++ fractionText frac)))))))))) := by
  simp [stampChars]

theorem fourDigits_append (n : Nat) (rest : List Char) :
    ((fourDigits n ++ rest).length < 4) = False ∧ isDigit (fourDigits n ++ rest) 0 = true ∧
    (fourDigits n ++ rest).take 4 = fourDigits n ∧ (fourDigits n ++ rest).drop 4 = rest := by
  refine ⟨?_, ?_, ?_, ?_⟩
  · simp [fourDigits]
  · simp [fourDigits, isDigit, digitChar_isDigit]
  · simp [fourDigits]
  · simp [fourDigits]

theorem parseFields_stamp (c : Civil) (hv : c.Valid) (frac : List Nat) (hf : frac.length ≤ 9) :
    ∃ nsec : Int, 0 ≤ nsec ∧ nsec < 1000000000 ∧
      parseFields (stampChars c frac) =
        some { year := c.year, month := c.month, day := c.day, hour := c.hour, min := c.min,
               sec := c.sec, nsec := nsec } := by
  obtain ⟨hy, hm1, hm12, hd1, hdm, hh, hmi, hs⟩ := hv
  have hdm31 : c.day ≤ 31 := by
    unfold monthLength at hdm
    split_ifs at hdm <;> omega
  obtain ⟨nsec, hfrac, hn0, hn1⟩ := parseFraction_fractionText frac hf
  refine ⟨nsec, hn0, hn1, ?_⟩
  obtain ⟨f1, f2, f3, f4⟩ := fourDigits_append c.year
    ('-' :: (twoDigits c.month ++ ('-' :: (twoDigits c.day ++ ('T' ::
        (twoDigits c.hour ++ (':' :: (twoDigits c.min ++ (':' ::
          (twoDigits c.sec ++ fractionText frac))))))))))
  have cm : ¬ ((c.month : Int) ≤ 0 ∨ 12 < (c.month : Int)) := by omega
  have ch : ¬ ((c.hour : Int) < 0 ∨ 24 ≤ (c.hour : Int)) := by omega
  have cmi : ¬ ((c.min : Int) < 0 ∨ 60 ≤ (c.min : Int)) := by omega
  have cs : ¬ ((c.sec : Int) < 0 ∨ 60 ≤ (c.sec : Int)) := by omega
  rw [stampChars_eq]
  unfold parseFields
  simp only [f1, f2, f3, f4, atoi_fourDigits c.year hy, skip_cons,
    getnum_twoDigits c.month (by omega), getnum_twoDigits c.day (by omega),
    getnum_twoDigits c.hour (by omega), getnum_twoDigits c.min (by omega),
    getnum_twoDigits c.sec (by omega), hfrac, Bool.or_eq_true, decide_eq_true_eq, cm, ch, cmi, cs,
    if_false, Bool.not_true, Bool.false_eq_true, or_self, List.length_nil, gt_iff_lt,
    lt_self_iff_false]


theorem daysIn_cast (Y M : Nat) (h1 : 1 ≤ M) (h12 : M ≤ 12) :
    daysIn (M : Int) (Y : Int) = (monthLength Y M : Int) := by
  unfold daysIn
  rw [isLeap_cast]
  have hleap : leapYear Y = true ∨ leapYear Y = false := by
    cases leapYear Y <;> simp
  interval_cases M <;> rcases hleap with hl | hl <;> simp [hl, daysBefore, monthLength]

theorem timeParse_stamp (c : Civil) (hv : c.Valid) (frac : List Nat) (hf : frac.length ≤ 9) :
    (timeParse (stamp c frac)).2 = none ∧ (timeParse (stamp c frac)).1.Unix = c.unix := by
  obtain ⟨nsec, hn0, hn1, hp⟩ := parseFields_stamp c hv frac hf
  have hl : (stamp c frac).toList = stampChars c frac := rfl
  have hday : ¬ ((c.day : Int) < 1 ∨ (c.day : Int) > daysIn (c.month : Int) (c.year : Int)) := by
    rw [daysIn_cast c.year c.month hv.2.1 hv.2.2.1]
    have := hv.2.2.2.1
    have := hv.2.2.2.2.1
    omega
  unfold timeParse
  rw [hl, hp]
  simp only [Bool.or_eq_true, decide_eq_true_eq, hday, if_false]
  exact ⟨trivial, Date_Unix c hv nsec hn0 hn1⟩

/-- C7: when the earliest creation date in the collection is the timestamp
string of a valid civil time, written `YYYY-MM-DDTHH:MM:SS` with no fraction or
with a fraction of one to nine digits, `getLatestRecord` prints that string
and then the unix timestamp of exactly that instant, reads no error, and
completes. -/
theorem cursor_round_trip (env : Env) (w : World) (c : Civil) (frac : List Nat)
    (hv : c.Valid) (hf : frac.length ≤ 9)
    (hfind : findOneDecode env w.store = .ok { CreatedDate := stamp c frac }) :
    getLatestRecord env w =
      .completed { store := w.store,
                   trace := w.trace ++
                     [.findOne, .stdout (stamp c frac ++ "\n"),
                      .stdout (toString c.unix ++ "\n")] } := by
  obtain ⟨h1, h2⟩ := timeParse_stamp c hv frac hf
  rw [getLatestRecord_eq]
  simp only [hfind, h1, h2]

theorem piDayNoon_unix : piDayNoon.unix = 1615723200 := by
  have h1 := daysBeforeYear_closed 2021
  have h2 := daysBeforeYear_1970
  unfold Civil.unix Civil.dayNumber piDayNoon
  simp only [daysInMonths, monthLength, leapYear, h2]
  norm_num
  omega

theorem cursor_round_trip_witness :
    getLatestRecord (steadyEnv (fun _ => .requestFailed "unused"))
        { store := [eventDoc "7" "2021-03-14T12:00:00.000000000"], trace := [] } =
      .completed { store := [eventDoc "7" "2021-03-14T12:00:00.000000000"],
                   trace := [.findOne, .stdout "2021-03-14T12:00:00.000000000\n",
                             .stdout "1615723200\n"] } :=
  (cursor_round_trip (steadyEnv (fun _ => .requestFailed "unused"))
      { store := [eventDoc "7" "2021-03-14T12:00:00.000000000"], trace := [] }
      piDayNoon [0, 0, 0, 0, 0, 0, 0, 0, 0] (by decide) (by decide) rfl).trans
    (by rw [piDayNoon_unix]; rfl)


theorem lexLe_cons_eq (a b : Char) (as bs : List Char) :
    lexLe (a :: as) (b :: bs) = (if a < b then true else if b < a then false else lexLe as bs) := by
  rw [lexLe]

theorem lexLe_cons (a b : Char) (as bs : List Char) :
    lexLe (a :: as) (b :: bs) = true ↔ a < b ∨ (a = b ∧ lexLe as bs = true) := by
  rw [lexLe_cons_eq]
  rcases lt_trichotomy a b with h | h | h
  · simp [h]
  · subst h
    simp
  · have h2 : ¬ a < b := not_lt.2 (le_of_lt h)
    have h3 : a ≠ b := ne_of_gt h
    simp [h, h2, h3]

theorem lexLe_total : ∀ a b : List Char, lexLe a b = true ∨ lexLe b a = true := by
  intro a
  induction a with
  | nil => intro b; exact Or.inl (by simp [lexLe])
  | cons x xs ih =>
    intro b
    cases b with
    | nil => exact Or.inr (by simp [lexLe])
    | cons y ys =>
      rw [lexLe_cons, lexLe_cons]
      rcases lt_trichotomy x y with h | h | h
      · exact Or.inl (Or.inl h)
      · subst h
        rcases ih ys with h2 | h2
        · exact Or.inl (Or.inr ⟨rfl, h2⟩)
        · exact Or.inr (Or.inr ⟨rfl, h2⟩)
      · exact Or.inr (Or.inl h)

theorem lexLe_trans : ∀ a b c : List Char, lexLe a b = true → lexLe b c = true →
    lexLe a c = true := by
  intro a
  induction a with
  | nil => intro b c _ _; simp [lexLe]
  | cons x xs ih =>
    intro b c hab hbc
    cases b with
    | nil => simp [lexLe] at hab
    | cons y ys =>
      cases c with
      | nil => simp [lexLe] at hbc
      | cons z zs =>
        rw [lexLe_cons] at hab hbc ⊢
        rcases hab with h1 | ⟨h1, h1'⟩
        · rcases hbc with h2 | ⟨h2, _⟩
          · exact Or.inl (lt_trans h1 h2)
          · exact Or.inl (h2 ▸ h1)
        · subst h1
          rcases hbc with h2 | ⟨h2, h2'⟩
          · exact Or.inl h2
          · exact Or.inr ⟨h2, ih ys zs h1' h2'⟩

theorem foldMin_spec {α : Type} (le : α → α → Bool) (P : α → Prop)
    (htot : ∀ a b, P a → P b → le a b = true ∨ le b a = true)
    (htrans : ∀ a b c, P a → P b → P c → le a b = true → le b c = true → le a c = true) :
    ∀ (l : List α) (d : α), P d → (∀ x ∈ l, P x) →
      (l.foldl (fun best x => if le best x then best else x) d) ∈ d :: l ∧
      le (l.foldl (fun best x => if le best x then best else x) d) d = true ∧
      ∀ x ∈ l, le (l.foldl (fun best x => if le best x then best else x) d) x = true := by
  intro l
  induction l with
  | nil =>
    intro d hd _
    refine ⟨by simp, ?_, by simp⟩
    rcases htot d d hd hd with h | h <;> exact h
  | cons x l ih =>
    intro d hd hl
    have hx : P x := hl x (by simp)
    have hl2 : ∀ y ∈ l, P y := fun y hy => hl y (by simp [hy])
    simp only [List.foldl_cons]
    by_cases hdx : le d x = true
    · rw [if_pos hdx]
      obtain ⟨m1, m2, m3⟩ := ih d hd hl2
      have hm : P (l.foldl (fun best x => if le best x then best else x) d) := by
        rcases List.mem_cons.1 m1 with h | h
        · rw [h]; exact hd
        · exact hl2 _ h
      refine ⟨?_, m2, ?_⟩
      · rcases List.mem_cons.1 m1 with h | h
        · rw [h]; simp
        · simp [h]
      · intro y hy
        rcases List.mem_cons.1 hy with h | h
        · rw [h]; exact htrans _ _ _ hm hd hx m2 hdx
        · exact m3 y h
    · rw [if_neg hdx]
      have hxd : le x d = true := by
        rcases htot d x hd hx with h | h
        · exact absurd h hdx
        · exact h
      obtain ⟨m1, m2, m3⟩ := ih x hx hl2
      have hm : P (l.foldl (fun best x => if le best x then best else x) x) := by
        rcases List.mem_cons.1 m1 with h | h
        · rw [h]; exact hx
        · exact hl2 _ h
      refine ⟨?_, htrans _ _ _ hm hx hd m2 hxd, ?_⟩
      · rcases List.mem_cons.1 m1 with h | h
        · rw [h]; simp
        · simp [h]
      · intro y hy
        rcases List.mem_cons.1 hy with h | h
        · rw [h]; exact m2
        · exact m3 y h


theorem digitChar_lt (m n : Nat) : digitChar m < digitChar n ↔ m % 10 < n % 10 := by
  unfold digitChar
  have hm : m % 10 < 10 := Nat.mod_lt _ (by decide)
  have hn : n % 10 < 10 := Nat.mod_lt _ (by decide)
  generalize m % 10 = a at hm
  generalize n % 10 = b at hn
  interval_cases a <;> interval_cases b <;> decide

theorem digitChar_eq_iff (m n : Nat) : digitChar m = digitChar n ↔ m % 10 = n % 10 := by
  unfold digitChar
  have hm : m % 10 < 10 := Nat.mod_lt _ (by decide)
  have hn : n % 10 < 10 := Nat.mod_lt _ (by decide)
  generalize m % 10 = a at hm
  generalize n % 10 = b at hn
  interval_cases a <;> interval_cases b <;> decide

theorem stampChars_lexLe_key (c1 c2 : Civil) (f1 f2 : List Nat) (v1 : c1.Valid) (v2 : c2.Valid)
    (h : lexLe (stampChars c1 f1) (stampChars c2 f2) = true) : c1.sortKey ≤ c2.sortKey := by
  obtain ⟨Y1, M1, D1, H1, I1, S1⟩ := c1
  obtain ⟨Y2, M2, D2, H2, I2, S2⟩ := c2
  obtain ⟨a1, a2, a3, a4, a5, a6, a7, a8⟩ := v1
  obtain ⟨b1, b2, b3, b4, b5, b6, b7, b8⟩ := v2
  simp only at a1 a2 a3 a4 a5 a6 a7 a8 b1 b2 b3 b4 b5 b6 b7 b8
  have a9 : D1 ≤ 31 := by
    unfold monthLength at a5
    split_ifs at a5 <;> omega
  have b9 : D2 ≤ 31 := by
    unfold monthLength at b5
    split_ifs at b5 <;> omega
  rw [stampChars_eq, stampChars_eq] at h
  simp only [fourDigits, twoDigits, List.cons_append, List.nil_append, lexLe_cons, digitChar_lt,
    digitChar_eq_iff, lt_self_iff_false, true_and, false_or] at h
  unfold Civil.sortKey
  simp only
  rcases h with h1 | ⟨e1, h2 | ⟨e2, h3 | ⟨e3, h4 | ⟨e4, h5 | ⟨e5, h6 | ⟨e6, h7 | ⟨e7, h8 | ⟨e8, h9 | ⟨e9, h10 | ⟨e10, h11 | ⟨e11, h12 | ⟨e12, h13 | ⟨e13, h14 | ⟨e14, _⟩⟩⟩⟩⟩⟩⟩⟩⟩⟩⟩⟩⟩⟩
  all_goals omega


theorem daysBeforeYear_mono (a b : Nat) (h : a ≤ b) : daysBeforeYear a ≤ daysBeforeYear b := by
  induction b with
  | zero =>
    have : a = 0 := by omega
    rw [this]
  | succ b ih =>
    rcases Nat.eq_or_lt_of_le h with h1 | h1
    · rw [h1]
    · have := ih (by omega)
      rw [daysBeforeYear]
      omega

theorem daysInMonths_mono (y a b : Nat) (h : a ≤ b) : daysInMonths y a ≤ daysInMonths y b := by
  induction b with
  | zero =>
    have : a = 0 := by omega
    rw [this]
  | succ b ih =>
    rcases Nat.eq_or_lt_of_le h with h1 | h1
    · rw [h1]
    · have := ih (by omega)
      rw [daysInMonths]
      omega

theorem daysInMonths_twelve (y : Nat) : daysInMonths y 12 = yearLength y := by
  have hleap : leapYear y = true ∨ leapYear y = false := by
    cases leapYear y <;> simp
  rcases hleap with hl | hl <;> simp [daysInMonths, monthLength, yearLength, hl]

theorem dayNumber_succ_le (c : Civil) (v : c.Valid) :
    c.dayNumber + 1 ≤ daysBeforeYear c.year + daysInMonths c.year c.month := by
  obtain ⟨Y, M, D, H, I, S⟩ := c
  obtain ⟨_, m1, _, d1, d2, _, _, _⟩ := v
  simp only at m1 d1 d2
  unfold Civil.dayNumber
  simp only
  cases M with
  | zero => omega
  | succ k =>
    rw [daysInMonths]
    simp only [Nat.add_sub_cancel]
    omega

theorem unix_mono (c1 c2 : Civil) (v1 : c1.Valid) (v2 : c2.Valid)
    (hk : c1.sortKey ≤ c2.sortKey) : c1.unix ≤ c2.unix := by
  have n1 := dayNumber_succ_le c1 v1
  have n2 := dayNumber_succ_le c2 v2
  obtain ⟨a1, a2, a3, a4, a5, a6, a7, a8⟩ := v1
  obtain ⟨b1, b2, b3, b4, b5, b6, b7, b8⟩ := v2
  have a9 : c1.day ≤ 31 := by
    unfold monthLength at a5
    split_ifs at a5 <;> omega
  have b9 : c2.day ≤ 31 := by
    unfold monthLength at b5
    split_ifs at b5 <;> omega
  unfold Civil.sortKey at hk
  have hcases : c1.year < c2.year ∨ (c1.year = c2.year ∧ c1.month < c2.month) ∨
      (c1.year = c2.year ∧ c1.month = c2.month ∧ c1.day < c2.day) ∨
      (c1.year = c2.year ∧ c1.month = c2.month ∧ c1.day = c2.day ∧
        3600 * c1.hour + 60 * c1.min + c1.sec ≤ 3600 * c2.hour + 60 * c2.min + c2.sec) := by
    omega
  have hdn : c1.dayNumber + 1 ≤ c2.dayNumber ∨
      (c1.dayNumber = c2.dayNumber ∧
        3600 * c1.hour + 60 * c1.min + c1.sec ≤ 3600 * c2.hour + 60 * c2.min + c2.sec) := by
    rcases hcases with h | ⟨h, h'⟩ | ⟨h, h', h''⟩ | ⟨h, h', h'', h3⟩
    · left
      have e1 := daysInMonths_mono c1.year c1.month 12 a3
      have e2 := daysInMonths_twelve c1.year
      have e3 : daysBeforeYear (c1.year + 1) = daysBeforeYear c1.year + yearLength c1.year := rfl
      have e4 := daysBeforeYear_mono (c1.year + 1) c2.year h
      have e5 : daysBeforeYear c2.year ≤ c2.dayNumber := by
        unfold Civil.dayNumber
        omega
      omega
    · left
      have e1 := daysInMonths_mono c1.year c1.month (c2.month - 1) (by omega)
      have e5 : daysBeforeYear c2.year + daysInMonths c2.year (c2.month - 1) ≤ c2.dayNumber := by
        unfold Civil.dayNumber
        omega
      rw [← h] at e5
      omega
    · left
      unfold Civil.dayNumber
      rw [h, h']
      omega
    · right
      unfold Civil.dayNumber
      rw [h, h', h'']
      exact ⟨rfl, h3⟩
  unfold Civil.unix
  rcases hdn with h | ⟨h, h'⟩
  · omega
  · rw [h]
    omega


theorem sortsBefore_str (env : Env) (a b : JSON) (x y : String)
    (ha : createdDate a = some (.str x)) (hb : createdDate b = some (.str y)) :
    sortsBefore env a b = lexLe x.toList y.toList := by
  simp [sortsBefore, ha, hb]

/-- The cursor on documents with one date element. For a non-empty collection
in which every document carries, under `created_date`, the timestamp string of
a valid civil time, all written in the one format `YYYY-MM-DDTHH:MM:SS` with
the same number `p` of fraction digits, and in which decoding a document reads
that same string, `getLatestRecord` selects a document whose string is first
in lexicographic order, prints that string and the unix timestamp of its
instant, and that timestamp is at most the unix timestamp of every document of
the collection. -/
theorem earliest_cursor_of_plain_dates (env : Env) (w : World) (p : Nat) (hp : p ≤ 9)
    (hne : w.store ≠ []) (hread : env.readFault w.store = false)
    (hall : ∀ d ∈ w.store, ∃ (c : Civil) (frac : List Nat),
      c.Valid ∧ frac.length = p ∧ createdDate d = some (.str (stamp c frac)) ∧
      decodeEventDate env d = .ok { CreatedDate := stamp c frac }) :
    ∃ d0 ∈ w.store, ∃ (c0 : Civil) (frac0 : List Nat),
      c0.Valid ∧ frac0.length = p ∧ createdDate d0 = some (.str (stamp c0 frac0)) ∧
      earliest env w.store = some d0 ∧
      (∀ d ∈ w.store, ∀ s, createdDate d = some (.str s) →
        lexLe (stamp c0 frac0).toList s.toList = true) ∧
      getLatestRecord env w =
        .completed { store := w.store,
                     trace := w.trace ++
                       [.findOne, .stdout (stamp c0 frac0 ++ "\n"),
                        .stdout (toString c0.unix ++ "\n")] } ∧
      (∀ d ∈ w.store, ∀ (c : Civil) (frac : List Nat), c.Valid →
        createdDate d = some (.str (stamp c frac)) → c0.unix ≤ c.unix) := by
  cases hst : w.store with
  | nil => exact absurd hst hne
  | cons d ds =>
    rw [hst] at hall hread
    have hP : ∀ x ∈ d :: ds, ∃ s, createdDate x = some (.str s) := by
      intro x hx
      obtain ⟨c, frac, _, _, h, _⟩ := hall x hx
      exact ⟨_, h⟩
    obtain ⟨m1, m2, m3⟩ := foldMin_spec (sortsBefore env)
      (fun x => ∃ s, createdDate x = some (.str s))
      (by
        rintro a b ⟨x, ha⟩ ⟨y, hb⟩
        rw [sortsBefore_str env a b x y ha hb, sortsBefore_str env b a y x hb ha]
        exact lexLe_total _ _)
      (by
        rintro a b c ⟨x, ha⟩ ⟨y, hb⟩ ⟨z, hc⟩
        rw [sortsBefore_str env a b x y ha hb, sortsBefore_str env b c y z hb hc,
          sortsBefore_str env a c x z ha hc]
        exact lexLe_trans _ _ _)
      ds d (hP d (by simp)) (fun x hx => hP x (by simp [hx]))
    have hmin : ∀ x ∈ d :: ds,
        sortsBefore env (ds.foldl (fun best x => if sortsBefore env best x then best else x) d) x
          = true := by
      intro x hx
      rcases List.mem_cons.1 hx with h | h
      · rw [h]
        exact m2
      · exact m3 x h
    generalize hm : ds.foldl (fun best x => if sortsBefore env best x then best else x) d = m
      at m1 m2 m3 hmin
    obtain ⟨c0, frac0, hv0, hf0, hc0, hdec0⟩ := hall m m1
    have hearliest : earliest env (d :: ds) = some m := by
      simp only [earliest, hm]
    have hfind : findOneDecode env w.store = .ok { CreatedDate := stamp c0 frac0 } := by
      rw [hst]
      unfold findOneDecode
      simp only [hread, Bool.false_eq_true, if_false, hearliest, hdec0]
    obtain ⟨t1, t2⟩ := timeParse_stamp c0 hv0 frac0 (by omega)
    refine ⟨m, m1, c0, frac0, hv0, hf0, hc0, hearliest, ?_, ?_, ?_⟩
    · intro x hx s hs
      rw [← sortsBefore_str env m x _ s hc0 hs]
      exact hmin x hx
    · rw [hst] at hfind
      rw [getLatestRecord_eq]
      simp only [hst, hfind, t1, t2]
    · intro x hx c frac hv hc
      have hle := hmin x hx
      rw [sortsBefore_str env m x _ _ hc0 hc] at hle
      exact unix_mono c0 c hv0 hv (stampChars_lexLe_key c0 c frac0 frac hv0 hv hle)


theorem earliest_cursor_of_threeDocs :
    ∃ d0 ∈ threeDocs, ∃ (c0 : Civil) (frac0 : List Nat),
      c0.Valid ∧ frac0.length = 6 ∧ createdDate d0 = some (.str (stamp c0 frac0)) ∧
      earliest offlineEnv threeDocs = some d0 ∧
      (∀ d ∈ threeDocs, ∀ s, createdDate d = some (.str s) →
        lexLe (stamp c0 frac0).toList s.toList = true) ∧
      getLatestRecord offlineEnv { store := threeDocs, trace := [] } =
        .completed { store := threeDocs,
                     trace := [] ++
                       [.findOne, .stdout (stamp c0 frac0 ++ "\n"),
                        .stdout (toString c0.unix ++ "\n")] } ∧
      (∀ d ∈ threeDocs, ∀ (c : Civil) (frac : List Nat), c.Valid →
        createdDate d = some (.str (stamp c frac)) → c0.unix ≤ c.unix) :=
  earliest_cursor_of_plain_dates offlineEnv { store := threeDocs, trace := [] } 6 (by decide)
    (List.cons_ne_nil _ _) rfl
    (by
      intro d hd
      simp only [threeDocs, List.mem_cons, List.mem_singleton, List.not_mem_nil, or_false] at hd
      rcases hd with rfl | rfl | rfl
      · exact ⟨⟨2021, 3, 14, 11, 42, 27⟩, [0, 0, 0, 0, 0, 0], by decide, rfl, rfl, rfl⟩
      · exact ⟨⟨2021, 3, 14, 11, 40, 3⟩, [0, 0, 0, 0, 0, 0], by decide, rfl, rfl, rfl⟩
      · exact ⟨⟨2021, 3, 14, 11, 41, 55⟩, [0, 0, 0, 0, 0, 0], by decide, rfl, rfl, rfl⟩)

theorem elevenForty_unix : elevenForty.unix = 1615722003 := by
  have h1 := daysBeforeYear_closed 2021
  have h2 := daysBeforeYear_1970
  unfold Civil.unix Civil.dayNumber elevenForty
  simp only [daysInMonths, monthLength, leapYear, h2]
  norm_num
  omega

/-- C8, at the failing input: the collection holds one document with the
elements `created_date: "2021-03-14T11:40:03"` and
`CREATED_DATE: "2021-03-14T12:00:00"`, in this order. The sort field of the
document is `created_date`, a valid timestamp whose unix time is 1615722003,
and the document is the one `FindOne` selects; but decoding it into
`EventDate` takes the later element as well, so `getLatestRecord` prints
`2021-03-14T12:00:00` and 1615723200, which is the timestamp of no stored
`created_date` and is above the one there is. -/
theorem cursor_reads_shadowing_key :
    createdDate shadowedDateDoc = some (.str (stamp elevenForty [])) ∧
    elevenForty.Valid ∧ elevenForty.unix = 1615722003 ∧
    earliest offlineEnv [shadowedDateDoc] = some shadowedDateDoc ∧
    getLatestRecord offlineEnv { store := [shadowedDateDoc], trace := [] } =
      .completed { store := [shadowedDateDoc],
                   trace := [.findOne, .stdout "2021-03-14T12:00:00\n",
                             .stdout "1615723200\n"] } ∧
    printed (main offlineEnv [shadowedDateDoc]).world.trace =
      ["No events returned\n", "2021-03-14T12:00:00\n", "1615723200\n", "Program complete\n"] :=
  ⟨rfl, by decide, elevenForty_unix, rfl, rfl, rfl⟩

end NftData
